import Mathlib

/-!
GoHub `chapter13/matrix`: a shallow embedding.

The Go package `matrix` (files `type.go`, `operation.go`) defines row vectors
(`[]float64`), matrices (`[][]float64`) and shape-checked arithmetic on them.

Modelling conventions.

* A slice is a `List`; the nil slice and the empty slice are both `[]`.
* The scalar type `float64` is a type parameter `α` that carries only the
  operations the code uses (`0`, `+`, `-`, `*`).  Structural theorems assume
  no law about them; algebraic theorems name the laws they need.  The type
  `F64` is IEEE-754 binary64 itself, for what depends on rounding, overflow
  or NaN.
* A Go function returning `(value, err)` returns a pair whose second
  component is `Option String`: `none` is the nil error and `some msg` is
  `errors.New(msg)`.
* A run-time panic (index out of range) is the outer `Option` being `none`.
* A method with a pointer receiver (`Mul`) returns the receiver after the
  call.  `(*Matrix).Mul` writes through row headers that it copies, so its
  receiver is a list of row headers over an explicit memory, in which rows
  may share cells.  Every other operation only reads its operands and
  returns freshly allocated slices, so there slices are values.
* `int` values are `Int`; the only integers the package computes are slice
  lengths and loop counters bounded by them.
-/

namespace GoHub

/-- The Go type `RowVector`, a slice of scalars. -/
abbrev RowVector (α : Type) := List α

/-- The Go type `Matrix`, a slice of rows. -/
abbrev Matrix (α : Type) := List (List α)

section Defs

variable {α : Type}

/-- Go's `make([]T, l, l)`: a slice of `l` copies of the zero value of `T`,
which is `0` for `float64` and the nil slice for `[]float64`.  Every call
site of the package passes a slice length or a value already checked to be
positive, so the negative case (a panic in Go) is never reached. -/
def makeSlice {β : Type} (zero : β) (l : Int) : List β := List.replicate l.toNat zero

/-- The assignment `xs[i] = v`; panics (is `none`) when `i` is out of range. -/
def setIdx (xs : List α) (i : Nat) (v : α) : Option (List α) :=
  if i < xs.length then some (xs.set i v) else none

/-- The assignment `m[i][j] = v` on a slice of slices. -/
def setCell (m : Matrix α) (i j : Nat) (v : α) : Option (Matrix α) := do
  let row ← m[i]?
  let row2 ← setIdx row j v
  setIdx m i row2

/-- The read `m[i][j]` on a slice of slices. -/
def getCell (m : Matrix α) (i j : Nat) : Option α := do
  let row ← m[i]?
  row[j]?

/-- Go's `for i := 0; i < n; i++ { body }` threading a state `s`; the body
may panic. -/
def forLoop {σ : Type} (n : Int) (body : Nat → σ → Option σ) (s : σ) : Option σ :=
  (List.range n.toNat).foldlM (fun s i => body i s) s

/-- Go's `for i, v := range xs { body }` started at index `i`. -/
def rangeLoopFrom {σ β : Type} (body : Nat → β → σ → Option σ) :
    Nat → List β → σ → Option σ
  | _, [], s => some s
  | i, v :: vs, s => (body i v s).bind (rangeLoopFrom body (i + 1) vs)

/-- Go's `for i, v := range xs { body }`. -/
def rangeLoop {σ β : Type} (xs : List β) (body : Nat → β → σ → Option σ) (s : σ) :
    Option σ :=
  rangeLoopFrom body 0 xs s

/-- Method `RowVector.GetShape`: `s[0] = 1`, `s[1] = len(rv1)`. -/
def RowVector.GetShape (rv1 : RowVector α) : Int × Int :=
  (1, (rv1.length : Int))

/-- Constructor `NewRowVector(l)`: an error when `l <= 0`, otherwise `l` zeros. -/
def NewRowVector [Zero α] (l : Int) : RowVector α × Option String :=
  if l ≤ 0 then
    ([], some "the dimension of row vectors must > 0")
  else
    (makeSlice 0 l, none)

/-- Method `RowVector.Dot`: `dot` starts at `0`; `dot += v * rv2[i]` over
`range rv1`. -/
def RowVector.Dot [Zero α] [Add α] [Mul α] (rv1 rv2 : RowVector α) :
    Option (α × Option String) :=
  if (RowVector.GetShape rv1).2 ≠ (RowVector.GetShape rv2).2 then
    some (0, some "the dimensions of the two vectors are not equal")
  else do
    let dot ← rangeLoop rv1 (fun i v dot => do
      let x ← rv2[i]?
      pure (dot + v * x)) 0
    pure (dot, none)

/-- Method `RowVector.Cross`: the 2-D and 3-D cross product. -/
def RowVector.Cross [Zero α] [Sub α] [Mul α] (rv1 rv2 : RowVector α) :
    Option (RowVector α × Option String) :=
  if (RowVector.GetShape rv1).2 ≠ (RowVector.GetShape rv2).2 then
    some ([], some "the shape of the two vectors are not equal")
  else
    let dim := (RowVector.GetShape rv1).2
    if dim ≠ 2 ∧ dim ≠ 3 then
      some ([], some "we can only calc the 2 or 3 dimensions row vector")
    else
      let rv3 : RowVector α := (NewRowVector 3).1
      if dim = 2 then do
        let rv3 ← setIdx rv3 0 0
        let rv3 ← setIdx rv3 1 0
        let a0 ← rv1[0]?
        let b1 ← rv2[1]?
        let a1 ← rv1[1]?
        let b0 ← rv2[0]?
        let rv3 ← setIdx rv3 2 (a0 * b1 - a1 * b0)
        pure (rv3, none)
      else if dim = 3 then do
        let a0 ← rv1[0]?
        let a1 ← rv1[1]?
        let a2 ← rv1[2]?
        let b0 ← rv2[0]?
        let b1 ← rv2[1]?
        let b2 ← rv2[2]?
        let rv3 ← setIdx rv3 0 (a1 * b2 - a2 * b1)
        let rv3 ← setIdx rv3 1 (a2 * b0 - a0 * b2)
        let rv3 ← setIdx rv3 2 (a0 * b1 - a1 * b0)
        pure (rv3, none)
      else
        pure (rv3, none)

/-- Method `RowVector.Length`: `l += v * v` over `range rv1`, then `math.Sqrt(l)`.
The library function `math.Sqrt` is the parameter `sqrt`. -/
def RowVector.Length [Zero α] [Add α] [Mul α] (sqrt : α → α) (rv1 : RowVector α) : α :=
  sqrt (rv1.foldl (fun l v => l + v * v) 0)

/-- Method `Matrix.GetShape`: `s[0] = len(m1)`, `s[1] = len(m1[0])`; indexing row 0
panics on a matrix without rows. -/
def Matrix.GetShape (m1 : Matrix α) : Option (Int × Int) := do
  let row0 ← m1[0]?
  pure ((m1.length : Int), (row0.length : Int))

/-- Constructor `NewMatrix(r, c)`: an error when `r <= 0 || c <= 0`;
otherwise `r` nil rows are made and row `i` is set to a fresh slice of `c`
zeros, for `i = 0..r-1`. -/
def NewMatrix [Zero α] (r c : Int) : Option (Matrix α × Option String) :=
  if r ≤ 0 ∨ c ≤ 0 then
    some ([], some "rows and columns of the matrix must >0")
  else do
    let mat : Matrix α := makeSlice [] r
    let mat ← forLoop r (fun i mat => setIdx mat i (makeSlice 0 c)) mat
    pure (mat, none)

/-- Method `Matrix.MatMul`: the shape test `c1 != r2`, then for every cell the dot
product of row `i` of `m1` with the gathered column `j` of `m2`; the error
of `NewMatrix` and the error of `Dot` are discarded as in the source. -/
def Matrix.MatMul [Zero α] [Add α] [Mul α] (m1 m2 : Matrix α) :
    Option (Matrix α × Option String) := do
  let s1 ← Matrix.GetShape m1
  let s2 ← Matrix.GetShape m2
  let r1 := s1.1
  let c1 := s1.2
  let r2 := s2.1
  let c2 := s2.2
  if c1 ≠ r2 then
    pure ([], some "the shape of the two matrix are not match")
  else
    let p ← NewMatrix r1 c2
    let m3 : Matrix α := p.1
    let m3 ← forLoop r1 (fun i m3 =>
      forLoop c2 (fun j m3 => do
        let v1 ← m1[i]?
        let v2 : RowVector α := makeSlice 0 r2
        let v2 ← forLoop r2 (fun k v2 => do
          let x ← getCell m2 k j
          setIdx v2 k x) v2
        let d ← RowVector.Dot v1 v2
        setCell m3 i j d.1) m3) m3
    pure (m3, none)

/-- Method `Matrix.Transpose`: `m2[i][j] = m1[j][i]` into `NewMatrix(c, r)`, whose
error is discarded as in the source. -/
def Matrix.Transpose [Zero α] (m1 : Matrix α) : Option (Matrix α) := do
  let s ← Matrix.GetShape m1
  let r := s.1
  let c := s.2
  let p ← NewMatrix c r
  let m2 : Matrix α := p.1
  forLoop c (fun i m2 =>
    forLoop r (fun j m2 => do
      let x ← getCell m1 j i
      setCell m2 i j x) m2) m2

/-- Go's `copy(dst, src)`: the first `min(len(dst), len(src))` elements of
`dst` are overwritten with those of `src`; the result is the new `dst`. -/
def goCopy {β : Type} (dst src : List β) : List β :=
  src.take (min dst.length src.length) ++ dst.drop (min dst.length src.length)

/-- Method `(*RowVector).Mul`: the receiver is copied to `rvTemp`, every
`rvTemp[i]` is multiplied by `c`, and `rvTemp` is copied back; the result is
the value of the receiver after the call. -/
def RowVector.Mul [Zero α] [Mul α] (rv1 : RowVector α) (c : α) : Option (RowVector α) := do
  let l := (RowVector.GetShape rv1).2
  let rvTemp : List α := makeSlice 0 l
  let rvTemp := goCopy rvTemp rv1
  let rvTemp ← forLoop l (fun i rvTemp => do
    let x ← rvTemp[i]?
    setIdx rvTemp i (x * c)) rvTemp
  pure (goCopy rv1 rvTemp)

/-- Method `RowVector.Add`: the length test, then `rv3[i] = v + rv2[i]` over
`range rv1` into `NewRowVector(len(rv1))`, whose error is discarded as in the
source.  Only `rv3` is assigned; the operands are read. -/
def RowVector.Add [Zero α] [Add α] (rv1 rv2 : RowVector α) :
    Option (RowVector α × Option String) :=
  if (RowVector.GetShape rv1).2 ≠ (RowVector.GetShape rv2).2 then
    some ([], some "the dimensions of the two vectors are not equal")
  else do
    let rv3 : RowVector α := (NewRowVector (RowVector.GetShape rv1).2).1
    let rv3 ← rangeLoop rv1 (fun i v rv3 => do
      let x ← rv2[i]?
      setIdx rv3 i (v + x)) rv3
    pure (rv3, none)

/-- Method `RowVector.Minus`: the length test, then `rv3[i] = v - rv2[i]`
over `range rv1` into `NewRowVector(len(rv1))`, whose error is discarded as
in the source.  Only `rv3` is assigned; the operands are read. -/
def RowVector.Minus [Zero α] [Sub α] (rv1 rv2 : RowVector α) :
    Option (RowVector α × Option String) :=
  if (RowVector.GetShape rv1).2 ≠ (RowVector.GetShape rv2).2 then
    some ([], some "the dimensions of the two vector are not equal")
  else do
    let rv3 : RowVector α := (NewRowVector (RowVector.GetShape rv1).2).1
    let rv3 ← rangeLoop rv1 (fun i v rv3 => do
      let x ← rv2[i]?
      setIdx rv3 i (v - x)) rv3
    pure (rv3, none)

/-- A `[]float64` slice header held in a matrix: its elements are the cells
`off, off+1, .., off+len-1` of the memory.  Two headers may name the same
cells, as two Go slices may share a backing array. -/
structure RowRef where
  off : Nat
  len : Nat
deriving DecidableEq

/-- The elements of the slice `h` in the memory `mem`. -/
def RowRef.read (mem : List α) (h : RowRef) : List α := (mem.drop h.off).take h.len

/-- The matrix value that the row headers `m` hold over the memory `mem`. -/
def deref (mem : List α) (m : List RowRef) : Matrix α := m.map (RowRef.read mem)

/-- Every row header lies inside the memory, as every Go slice lies inside
its backing array. -/
def InBounds (mem : List α) (m : List RowRef) : Prop :=
  ∀ h ∈ m, h.off + h.len ≤ mem.length

instance (mem : List α) (m : List RowRef) : Decidable (InBounds mem m) := by
  unfold InBounds
  infer_instance

/-- No two rows of the matrix share a memory cell. -/
def RowsDisjoint (m : List RowRef) : Prop :=
  m.Pairwise (fun h k => h.off + h.len ≤ k.off ∨ k.off + k.len ≤ h.off)

instance (m : List RowRef) : Decidable (RowsDisjoint m) := by
  unfold RowsDisjoint
  infer_instance

/-- Method `Matrix.GetShape` on a matrix given by its row headers:
`len(m1)` and `len(m1[0])` are header data. -/
def refShape (m1 : List RowRef) : Option (Int × Int) := do
  let h0 ← m1[0]?
  pure ((m1.length : Int), (h0.len : Int))

/-- Method `(*Matrix).Mul` over an explicit memory.  The receiver is the list
of its row headers `m1`.  `copy(mTemp, *m1)` copies the headers only, so
`mTemp[i][j] *= c` reads and writes the memory cell `off + j` of row `i` of
the receiver itself; a cell that two rows share is reached once through each
of them.  `copy(*m1, mTemp)` writes the same headers back.  The result is the
memory and the headers of the receiver after the call. -/
def Matrix.Mul [Mul α] (mem : List α) (m1 : List RowRef) (c : α) :
    Option (List α × List RowRef) := do
  let s ← refShape m1
  let row := s.1
  let col := s.2
  let mTemp : List RowRef := makeSlice ⟨0, 0⟩ row
  let mTemp := goCopy mTemp m1
  let mem ← forLoop row (fun i mem =>
    forLoop col (fun j mem => do
      let h ← mTemp[i]?
      if j < h.len then do
        let x ← mem[h.off + j]?
        setIdx mem (h.off + j) (x * c)
      else none) mem) mem
  pure (mem, goCopy m1 mTemp)

/-- Method `Matrix.Add`: the test `m1.GetShape() != m2.GetShape()`, then
`m3[i][j] = m1[i][j] + m2[i][j]` into `NewMatrix(r, c)`, whose error is
discarded as in the source. -/
def Matrix.Add [Zero α] [Add α] (m1 m2 : Matrix α) : Option (Matrix α × Option String) := do
  let s1 ← Matrix.GetShape m1
  let s2 ← Matrix.GetShape m2
  if s1 ≠ s2 then
    pure ([], some "the shape of the two matrix are not equal")
  else
    let r := s1.1
    let c := s1.2
    let p ← NewMatrix r c
    let m3 : Matrix α := p.1
    let m3 ← forLoop r (fun i m3 =>
      forLoop c (fun j m3 => do
        let x ← getCell m1 i j
        let y ← getCell m2 i j
        setCell m3 i j (x + y)) m3) m3
    pure (m3, none)

/-- Method `Matrix.Minus`: the test `m1.GetShape() != m2.GetShape()`, then
`m3[i][j] = m1[i][j] - m2[i][j]` into `NewMatrix(r, c)`, whose error is
discarded as in the source. -/
def Matrix.Minus [Zero α] [Sub α] (m1 m2 : Matrix α) : Option (Matrix α × Option String) := do
  let s1 ← Matrix.GetShape m1
  let s2 ← Matrix.GetShape m2
  if s1 ≠ s2 then
    pure ([], some "the shape of the two matrix are not equal")
  else
    let r := s1.1
    let c := s1.2
    let p ← NewMatrix r c
    let m3 : Matrix α := p.1
    let m3 ← forLoop r (fun i m3 =>
      forLoop c (fun j m3 => do
        let x ← getCell m1 i j
        let y ← getCell m2 i j
        setCell m3 i j (x - y)) m3) m3
    pure (m3, none)

/-- Well-formedness of a matrix: at least one row, at least one column, and
every row as long as row 0. -/
def WellFormed (m : Matrix α) : Prop :=
  0 < m.length ∧ 0 < (m.headD []).length ∧ ∀ row ∈ m, row.length = (m.headD []).length

instance (m : Matrix α) : Decidable (WellFormed m) := by
  unfold WellFormed
  infer_instance

/-- Number of rows of a matrix value. -/
def Matrix.rows (m : Matrix α) : Nat := m.length

/-- Length of row 0 of a matrix value (`0` without rows). -/
def Matrix.cols (m : Matrix α) : Nat := (m.headD []).length

/-- The sum over `k = 0..n-1`, accumulated in index order from `0`, of
`A[i][k] * B[k][j]`; `none` when one of the cells does not exist. -/
def cellSum [Zero α] [Add α] [Mul α] (A B : Matrix α) (i j : Nat) : Nat → Option α
  | 0 => some 0
  | n + 1 => do
    let acc ← cellSum A B i j n
    let x ← getCell A i n
    let y ← getCell B n j
    pure (acc + x * y)

/-- The left fold from `0`, in index order, of the products `a[i] * b[i]`. -/
def dotFold [Zero α] [Add α] [Mul α] (a b : RowVector α) : α :=
  (List.zip a b).foldl (fun acc p => acc + p.1 * p.2) 0

/-- The sum over `i = 0..n-1`, accumulated in index order from `0` with a
single accumulator, of `a[i] * b[i]`; `none` when an index is out of range. -/
def dotSum [Zero α] [Add α] [Mul α] (a b : RowVector α) : Nat → Option α
  | 0 => some 0
  | n + 1 => do
    let acc ← dotSum a b n
    let x ← a[n]?
    let y ← b[n]?
    pure (acc + x * y)

end Defs

/-- An IEEE-754 binary64 value, the Go type `float64`: a NaN, an infinity
with its sign, or the finite number `(-1)^neg * m * 2^e`.  The float64 values
are the finite triples with `m < 2^53`, `-1074 ≤ e ≤ 971` and `2^52 ≤ m`
unless `e = -1074`; the operations below return such triples.  Every
operation rounds on its own (no fused multiply-add), to nearest with ties to
even, as Go does on amd64. -/
inductive F64 where
  | nan : F64
  | inf (neg : Bool) : F64
  | fin (neg : Bool) (m : Nat) (e : Int) : F64
deriving DecidableEq

/-- The number of binary digits of `n`, computed with `fuel` halvings; a
fuel of `n` is always enough. -/
def F64.bitLen : Nat → Nat → Nat
  | 0, _ => 0
  | fuel + 1, n => if n = 0 then 0 else F64.bitLen fuel (n / 2) + 1

/-- Rounding to nearest, ties to even, of the exact number
`(-1)^neg * M * 2^E` to binary64; magnitudes of `2^1024` and more become an
infinity. -/
def F64.round (neg : Bool) (M : Nat) (E : Int) : F64 :=
  if M = 0 then F64.fin neg 0 (-1074)
  else
    let bits : Int := (F64.bitLen M M : Int)
    let e1 : Int := max (E + bits - 53) (-1074)
    if e1 ≤ E then
      if 971 < e1 then F64.inf neg else F64.fin neg (M * 2 ^ (E - e1).toNat) e1
    else
      let k : Nat := (e1 - E).toNat
      let q : Nat := M / 2 ^ k
      let r : Nat := M % 2 ^ k
      let half : Nat := 2 ^ (k - 1)
      let q1 : Nat := if half < r ∨ (r = half ∧ q % 2 = 1) then q + 1 else q
      let m2 : Nat := if q1 = 2 ^ 53 then 2 ^ 52 else q1
      let e2 : Int := if q1 = 2 ^ 53 then e1 + 1 else e1
      if 971 < e2 then F64.inf neg else F64.fin neg m2 e2

/-- The integer `(-1)^neg * n`. -/
def F64.signed (neg : Bool) (n : Nat) : Int := if neg then -(n : Int) else (n : Int)

/-- Go's unary `-x` on `float64`. -/
def F64.fneg : F64 → F64
  | F64.nan => F64.nan
  | F64.inf s => F64.inf (!s)
  | F64.fin s m e => F64.fin (!s) m e

/-- Go's `x * y` on `float64`. -/
def F64.fmul : F64 → F64 → F64
  | F64.nan, _ => F64.nan
  | _, F64.nan => F64.nan
  | F64.inf s1, F64.inf s2 => F64.inf (xor s1 s2)
  | F64.inf s1, F64.fin s2 m _ => if m = 0 then F64.nan else F64.inf (xor s1 s2)
  | F64.fin s1 m _, F64.inf s2 => if m = 0 then F64.nan else F64.inf (xor s1 s2)
  | F64.fin s1 m1 e1, F64.fin s2 m2 e2 => F64.round (xor s1 s2) (m1 * m2) (e1 + e2)

/-- Go's `x + y` on `float64`. -/
def F64.fadd : F64 → F64 → F64
  | F64.nan, _ => F64.nan
  | _, F64.nan => F64.nan
  | F64.inf s1, F64.inf s2 => if s1 = s2 then F64.inf s1 else F64.nan
  | F64.inf s1, F64.fin _ _ _ => F64.inf s1
  | F64.fin _ _ _, F64.inf s2 => F64.inf s2
  | F64.fin s1 m1 e1, F64.fin s2 m2 e2 =>
    let e : Int := min e1 e2
    let t : Int := F64.signed s1 (m1 * 2 ^ (e1 - e).toNat) + F64.signed s2 (m2 * 2 ^ (e2 - e).toNat)
    if t = 0 then F64.fin (s1 && s2) 0 (-1074)
    else F64.round (decide (t < 0)) t.natAbs e

/-- Go's `x - y` on `float64`. -/
def F64.fsub (x y : F64) : F64 := F64.fadd x (F64.fneg y)

/-- Go's `x == y` on `float64`: a NaN equals nothing, and the two zeros are
equal. -/
def F64.feq : F64 → F64 → Bool
  | F64.inf s1, F64.inf s2 => s1 == s2
  | F64.fin s1 m1 e1, F64.fin s2 m2 e2 =>
    (m1 == 0 && m2 == 0) || (s1 == s2 && m1 == m2 && e1 == e2)
  | _, _ => false

instance : Zero F64 := ⟨F64.fin false 0 (-1074)⟩
instance : Add F64 := ⟨F64.fadd⟩
instance : Sub F64 := ⟨F64.fsub⟩
instance : Mul F64 := ⟨F64.fmul⟩
instance : Neg F64 := ⟨F64.fneg⟩

/-- The largest finite `float64`, `math.MaxFloat64 = (2^53 - 1) * 2^971`. -/
def F64.maxFloat : F64 := F64.fin false 9007199254740991 971

/-- The `float64` value `2`, that is `2^52 * 2^(-51)`. -/
def F64.two : F64 := F64.fin false 4503599627370496 (-51)

/-- A matrix value with `r` rows, each of length `c`. -/
def Shape {α : Type} (m : Matrix α) (r c : Nat) : Prop :=
  m.length = r ∧ ∀ row ∈ m, row.length = c

/-- The memory cell `a` has been reached by the loops of `(*Matrix).Mul` when
they stand before cell `(i, j)`: it lies in a row before row `i`, or among the
first `j` cells of row `i`. -/
def scaledAt (m : List RowRef) (i j a : Nat) : Prop :=
  (∃ k h, k < i ∧ m[k]? = some h ∧ h.off ≤ a ∧ a < h.off + h.len) ∨
    (∃ h, m[i]? = some h ∧ h.off ≤ a ∧ a < h.off + j)

section Lemmas

variable {α : Type}

/-- Total-correctness rule for a counted loop: an invariant that holds at
entry and that every iteration re-establishes without panicking holds at
exit, and the loop returns. -/
theorem forLoop_inv {σ : Type} (P : Nat → σ → Prop) (body : Nat → σ → Option σ) :
    ∀ (n : Nat) (s0 : σ), P 0 s0 →
      (∀ i s, i < n → P i s → ∃ s2, body i s = some s2 ∧ P (i + 1) s2) →
      ∃ s, forLoop (n : Int) body s0 = some s ∧ P n s := by
  intro n
  induction n with
  | zero =>
    intro s0 h0 _
    exact ⟨s0, by simp [forLoop], h0⟩
  | succ n ih =>
    intro s0 h0 hstep
    obtain ⟨s, hs, hP⟩ := ih s0 h0 (fun i s hi hp => hstep i s (Nat.lt_succ_of_lt hi) hp)
    obtain ⟨s2, hs2, hP2⟩ := hstep n s (Nat.lt_succ_self n) hP
    refine ⟨s2, ?_, hP2⟩
    simp only [forLoop, Int.toNat_ofNat] at hs ⊢
    rw [List.range_succ, List.foldlM_append, hs]
    simp [hs2]

theorem forLoop_zero {σ : Type} (body : Nat → σ → Option σ) (s : σ) :
    forLoop 0 body s = some s := by
  simp [forLoop]

theorem makeSlice_length {β : Type} (z : β) (n : Nat) :
    (makeSlice z (n : Int)).length = n := by
  simp [makeSlice]

theorem setIdx_lt (xs : List α) (i : Nat) (v : α) (h : i < xs.length) :
    setIdx xs i v = some (xs.set i v) := by
  simp [setIdx, h]

theorem getCell_eq (m : Matrix α) (i j : Nat) (row : List α) (h : m[i]? = some row) :
    getCell m i j = row[j]? := by
  simp [getCell, h]

/-- Writing one cell of an `r x c` matrix value succeeds, keeps the shape,
stores the value and leaves every other cell alone. -/
theorem setCell_spec (m : Matrix α) (r c i j : Nat) (v : α) (hm : Shape m r c)
    (hi : i < r) (hj : j < c) :
    ∃ m2, setCell m i j v = some m2 ∧ Shape m2 r c ∧ getCell m2 i j = some v ∧
      ∀ i2 j2, (i2 ≠ i ∨ j2 ≠ j) → getCell m2 i2 j2 = getCell m i2 j2 := by
  obtain ⟨hlen, hrows⟩ := hm
  have hi2 : i < m.length := by omega
  have hrow : (m[i]).length = c := hrows _ (List.getElem_mem hi2)
  have hj2 : j < (m[i]).length := by omega
  refine ⟨m.set i ((m[i]).set j v), ?_, ⟨?_, ?_⟩, ?_, ?_⟩
  · simp [setCell, List.getElem?_eq_getElem hi2, setIdx, hj2, hi2]
  · simpa using hlen
  · intro row hmem
    rcases List.mem_or_eq_of_mem_set hmem with h | h
    · exact hrows row h
    · subst h
      simpa using hrow
  · simp [getCell, hi2, hj2]
  · intro i2 j2 hne
    by_cases h : i2 = i
    · subst h
      have hj3 : j2 ≠ j := by
        rcases hne with h | h
        · exact absurd rfl h
        · exact h
      simp [getCell, hi2, List.getElem?_set_ne (Ne.symm hj3)]
    · simp [getCell, List.getElem?_set_ne (Ne.symm h)]

/-- Two matrix values of the same shape with the same cells are equal. -/
theorem shape_ext (m m2 : Matrix α) (r c : Nat) (h : Shape m r c) (h2 : Shape m2 r c)
    (hc : ∀ i j, i < r → j < c → getCell m i j = getCell m2 i j) : m = m2 := by
  obtain ⟨hl, hr⟩ := h
  obtain ⟨hl2, hr2⟩ := h2
  apply List.ext_getElem (by omega)
  intro i hi hi2
  have e1 : (m[i]).length = c := hr _ (List.getElem_mem hi)
  have e2 : (m2[i]).length = c := hr2 _ (List.getElem_mem hi2)
  apply List.ext_getElem (by omega)
  intro j hj hj2
  have := hc i j (by omega) (by omega)
  simpa [getCell, hi, hi2, hj, hj2] using this

/-- The doubly nested fill loop: when the body at `(i, j)` stores `f i j`
into cell `(i, j)`, the loops return a matrix of the same shape whose every
cell `(i, j)` is `f i j`. -/
theorem fill_loops (r c : Nat) (f : Nat → Nat → α)
    (body : Nat → Nat → Matrix α → Option (Matrix α))
    (hbody : ∀ i j m, i < r → j < c → body i j m = setCell m i j (f i j))
    (m0 : Matrix α) (h0 : Shape m0 r c) :
    ∃ m, forLoop (r : Int) (fun i m => forLoop (c : Int) (fun j m => body i j m) m) m0 = some m ∧
      Shape m r c ∧ ∀ i j, i < r → j < c → getCell m i j = some (f i j) := by
  have key := forLoop_inv
    (fun (n : Nat) (m : Matrix α) =>
      Shape m r c ∧ ∀ i j, i < n → j < c → getCell m i j = some (f i j))
    (fun i m => forLoop (c : Int) (fun j m => body i j m) m) r m0
    ⟨h0, fun i j hi _ => absurd hi (Nat.not_lt_zero i)⟩ ?_
  · obtain ⟨m, hm, hs, hcells⟩ := key
    exact ⟨m, hm, hs, hcells⟩
  · intro i m hi ⟨hs, hdone⟩
    have inner := forLoop_inv
      (fun (n : Nat) (m : Matrix α) =>
        Shape m r c ∧ (∀ i2 j, i2 < i → j < c → getCell m i2 j = some (f i2 j)) ∧
          ∀ j, j < n → getCell m i j = some (f i j))
      (fun j m => body i j m) c m
      ⟨hs, hdone, fun j hj => absurd hj (Nat.not_lt_zero j)⟩ ?_
    · obtain ⟨m2, hm2, hs2, hold, hnew⟩ := inner
      refine ⟨m2, hm2, hs2, ?_⟩
      intro i2 j hi2 hj
      rcases Nat.lt_succ_iff_lt_or_eq.mp hi2 with h | h
      · exact hold i2 j h hj
      · subst h
        exact hnew j hj
    · intro j m1 hj ⟨hs1, hold, hnew⟩
      obtain ⟨m2, hm2, hs2, hget, hother⟩ := setCell_spec m1 r c i j (f i j) hs1 hi hj
      refine ⟨m2, (hbody i j m1 hi hj).trans hm2, hs2, ?_, ?_⟩
      · intro i2 j2 hi2 hj2
        rw [hother i2 j2 (Or.inl (by omega))]
        exact hold i2 j2 hi2 hj2
      · intro j2 hj2
        rcases Nat.lt_succ_iff_lt_or_eq.mp hj2 with h | h
        · rw [hother i j2 (Or.inr (by omega))]
          exact hnew j2 h
        · subst h
          exact hget

/-- The single-loop fill used to gather a column. -/
theorem gather_loop (n : Nat) (g : Nat → Option α) (f : Nat → α)
    (hg : ∀ k, k < n → g k = some (f k)) (v0 : List α) (h0 : v0.length = n) :
    ∃ v, forLoop (n : Int) (fun k v => do
        let x ← g k
        setIdx v k x) v0 = some v ∧
      v.length = n ∧ ∀ k, k < n → v[k]? = some (f k) := by
  have key := forLoop_inv
    (fun (m : Nat) (v : List α) => v.length = n ∧ ∀ k, k < m → v[k]? = some (f k))
    (fun k v => do
        let x ← g k
        setIdx v k x) n v0
    ⟨h0, fun k hk => absurd hk (Nat.not_lt_zero k)⟩ ?_
  · exact key
  · intro k v hk ⟨hlen, hdone⟩
    have hk2 : k < v.length := by omega
    refine ⟨v.set k (f k), by simp [hg k hk, setIdx, hk2], by simpa using hlen, ?_⟩
    intro k2 hk3
    rcases Nat.lt_succ_iff_lt_or_eq.mp hk3 with h | h
    · rw [List.getElem?_set_ne (by omega)]
      exact hdone k2 h
    · subst h
      simp [hk2]

theorem shape_getCell (m : Matrix α) (r c i j : Nat) (h : Shape m r c) (hi : i < r)
    (hj : j < c) : ∃ x, getCell m i j = some x := by
  obtain ⟨hl, hr⟩ := h
  have hi2 : i < m.length := by omega
  have e1 : (m[i]).length = c := hr _ (List.getElem_mem hi2)
  have hj2 : j < (m[i]).length := by omega
  exact ⟨(m[i])[j], by simp [getCell, hi2, hj2]⟩

theorem shape_row (m : Matrix α) (r c i : Nat) (h : Shape m r c) (hi : i < r) :
    ∃ row, m[i]? = some row ∧ row.length = c := by
  obtain ⟨hl, hr⟩ := h
  have hi2 : i < m.length := by omega
  exact ⟨m[i], by simp [hi2], hr _ (List.getElem_mem hi2)⟩

theorem wellFormed_shape (m : Matrix α) (h : WellFormed m) :
    Shape m (Matrix.rows m) (Matrix.cols m) ∧ 0 < Matrix.rows m ∧ 0 < Matrix.cols m :=
  ⟨⟨rfl, h.2.2⟩, h.1, h.2.1⟩

theorem shape_wellFormed (m : Matrix α) (r c : Nat) (h : Shape m r c) (hr : 0 < r)
    (hc : 0 < c) : WellFormed m ∧ Matrix.rows m = r ∧ Matrix.cols m = c := by
  obtain ⟨hl, hrows⟩ := h
  cases m with
  | nil => simp at hl; omega
  | cons row0 rest =>
    have e0 : row0.length = c := hrows row0 (List.mem_cons_self _ _)
    refine ⟨⟨by simp, by simp [e0, hc], ?_⟩, hl, by simp [Matrix.cols, e0]⟩
    intro row hrow
    simp only [List.headD_cons]
    rw [hrows row hrow, e0]

theorem getShape_wellFormed (m : Matrix α) (h : WellFormed m) :
    Matrix.GetShape m = some ((Matrix.rows m : Int), (Matrix.cols m : Int)) := by
  cases m with
  | nil => exact absurd h.1 (by simp)
  | cons row0 rest => simp [Matrix.GetShape, Matrix.rows, Matrix.cols]

/-- For positive `r` and `c`, `NewMatrix` returns `r` rows of `c` zeros and a
nil error. -/
theorem newMatrix_eq [Zero α] (r c : Nat) (hr : 0 < r) (hc : 0 < c) :
    (NewMatrix (r : Int) (c : Int) : Option (Matrix α × Option String))
      = some (List.replicate r (List.replicate c 0), none) := by
  have h : ¬ ((r : Int) ≤ 0 ∨ (c : Int) ≤ 0) := by omega
  obtain ⟨mat, hmat, hlen, hrows⟩ := forLoop_inv
    (fun (n : Nat) (mat : Matrix α) =>
      mat.length = r ∧ ∀ k, k < n → mat[k]? = some (List.replicate c (0 : α)))
    (fun i mat => setIdx mat i (makeSlice 0 (c : Int))) r (makeSlice [] (r : Int))
    ⟨makeSlice_length _ r, fun k hk => absurd hk (Nat.not_lt_zero k)⟩
    (by
      intro i mat hi ⟨hl, hdone⟩
      have hi2 : i < mat.length := by omega
      refine ⟨mat.set i (makeSlice 0 (c : Int)), setIdx_lt mat i _ hi2,
        by simpa using hl, ?_⟩
      intro k hk
      rcases Nat.lt_succ_iff_lt_or_eq.mp hk with h1 | h1
      · rw [List.getElem?_set_ne (by omega)]
        exact hdone k h1
      · subst h1
        simp [hi2, makeSlice])
  have hrep : mat = List.replicate r (List.replicate c (0 : α)) := by
    rw [List.eq_replicate_iff]
    refine ⟨hlen, ?_⟩
    intro row hrow
    obtain ⟨k, hk⟩ := List.getElem?_of_mem hrow
    have hk2 : k < r := by
      have := (List.getElem?_eq_some.mp hk).1
      omega
    rw [hrows k hk2] at hk
    exact (Option.some.inj hk).symm
  unfold NewMatrix
  rw [if_neg h]
  simp only [Option.bind_eq_bind, hmat, Option.some_bind, hrep]
  rfl

theorem replicate_shape (r c : Nat) (z : α) :
    Shape (List.replicate r (List.replicate c z)) r c := by
  refine ⟨by simp, ?_⟩
  intro row hrow
  rw [List.eq_of_mem_replicate hrow]
  simp

/-- The loop of `Dot` started at index `i` with accumulator `acc`. -/
theorem rangeLoopFrom_dot [Add α] [Mul α] (b : List α) :
    ∀ (a : List α) (i : Nat) (acc : α), i + a.length ≤ b.length →
      rangeLoopFrom (fun i v dot => do
          let x ← b[i]?
          pure (dot + v * x)) i a acc
        = some ((List.zip a (b.drop i)).foldl (fun acc p => acc + p.1 * p.2) acc) := by
  intro a
  induction a with
  | nil => intro i acc _; simp [rangeLoopFrom]
  | cons v vs ih =>
    intro i acc h
    simp only [List.length_cons] at h
    have hi : i < b.length := by omega
    rw [List.drop_eq_getElem_cons hi]
    simp only [rangeLoopFrom, List.getElem?_eq_getElem hi, Option.bind_eq_bind, Option.some_bind,
      Option.pure_def, List.zip_cons_cons, List.foldl_cons]
    exact ih (i + 1) _ (by omega)

/-- On vectors of equal length `Dot` returns the left fold and a nil error. -/
theorem dot_eq [Zero α] [Add α] [Mul α] (a b : RowVector α) (h : a.length = b.length) :
    RowVector.Dot a b = some (dotFold a b, none) := by
  have hne : ¬ ((RowVector.GetShape a).2 ≠ (RowVector.GetShape b).2) := by
    simp [RowVector.GetShape, h]
  have := rangeLoopFrom_dot b a 0 0 (by omega)
  simp only [List.drop_zero] at this
  simp only [RowVector.Dot, hne, if_false, rangeLoop, this, dotFold]
  rfl

/-- On vectors of different lengths `Dot` returns `0` and its error. -/
theorem dot_ne [Zero α] [Add α] [Mul α] (a b : RowVector α) (h : a.length ≠ b.length) :
    RowVector.Dot a b = some (0, some "the dimensions of the two vectors are not equal") := by
  have hne : (RowVector.GetShape a).2 ≠ (RowVector.GetShape b).2 := by
    simpa [RowVector.GetShape] using h
  unfold RowVector.Dot
  rw [if_pos hne]

theorem foldl_zip_swap [Add α] [Mul α] (hmul : ∀ x y : α, x * y = y * x) :
    ∀ (a b : List α) (acc : α),
      (List.zip a b).foldl (fun acc p => acc + p.1 * p.2) acc
        = (List.zip b a).foldl (fun acc p => acc + p.1 * p.2) acc := by
  intro a
  induction a with
  | nil => intro b acc; simp
  | cons x xs ih =>
    intro b acc
    cases b with
    | nil => simp
    | cons y ys =>
      simp only [List.zip_cons_cons, List.foldl_cons]
      rw [hmul x y]
      exact ih ys _

theorem dotFold_take_succ [Zero α] [Add α] [Mul α] (a b : List α) (m : Nat)
    (hm : m < a.length) (hm2 : m < b.length) :
    dotFold (a.take (m + 1)) (b.take (m + 1)) = dotFold (a.take m) (b.take m) + a[m] * b[m] := by
  have hl : (a.take m).length = (b.take m).length := by
    simp [List.length_take]; omega
  simp only [dotFold, List.take_succ, List.getElem?_eq_getElem hm, List.getElem?_eq_getElem hm2,
    Option.toList_some, List.zip_append hl, List.foldl_append, List.zip_cons_cons, List.zip_nil_left,
    List.foldl_cons, List.foldl_nil]

/-- On a well-formed matrix `Transpose` returns a `cols x rows` matrix whose
cell `(i, j)` is cell `(j, i)` of the argument. -/
theorem transpose_spec [Zero α] (A : Matrix α) (h : WellFormed A) :
    ∃ T, Matrix.Transpose A = some T ∧ Shape T (Matrix.cols A) (Matrix.rows A) ∧
      ∀ i j, i < Matrix.cols A → j < Matrix.rows A → getCell T i j = getCell A j i := by
  obtain ⟨hs, hr, hc⟩ := wellFormed_shape A h
  have hf : ∀ i j, i < Matrix.cols A → j < Matrix.rows A →
      getCell A j i = some ((getCell A j i).getD 0) := by
    intro i j hi hj
    obtain ⟨x, hx⟩ := shape_getCell A _ _ j i hs hj hi
    simp [hx]
  obtain ⟨T, hT, hsh, hcells⟩ := fill_loops (Matrix.cols A) (Matrix.rows A)
    (fun i j => (getCell A j i).getD 0)
    (fun i j m => do
      let x ← getCell A j i
      setCell m i j x)
    (by
      intro i j m hi hj
      obtain ⟨x, hx⟩ := shape_getCell A _ _ j i hs hj hi
      simp [hx])
    (List.replicate (Matrix.cols A) (List.replicate (Matrix.rows A) 0))
    (replicate_shape _ _ 0)
  refine ⟨T, ?_, hsh, ?_⟩
  · simp only [Matrix.Transpose, getShape_wellFormed A h, newMatrix_eq _ _ hc hr,
      Option.bind_eq_bind, Option.some_bind]
    exact hT
  · intro i j hi hj
    rw [hcells i j hi hj, ← hf i j hi hj]

/-- The body of `MatMul` at cell `(i, j)`: the gathered column and the dot
product it stores. -/
theorem matMul_column [Zero α] (B : Matrix α) (r2 c2 j : Nat) (hB : Shape B r2 c2)
    (hj : j < c2) :
    ∃ col, forLoop (r2 : Int) (fun k v2 => do
        let x ← getCell B k j
        setIdx v2 k x) (makeSlice 0 (r2 : Int)) = some col ∧
      col.length = r2 ∧ ∀ k, k < r2 → col[k]? = getCell B k j := by
  have hf : ∀ k, k < r2 → getCell B k j = some ((getCell B k j).getD 0) := by
    intro k hk
    obtain ⟨x, hx⟩ := shape_getCell B _ _ k j hB hk hj
    simp [hx]
  obtain ⟨col, h1, h2, h3⟩ := gather_loop r2 (fun k => getCell B k j)
    (fun k => (getCell B k j).getD 0) hf (makeSlice 0 (r2 : Int)) (makeSlice_length 0 r2)
  refine ⟨col, h1, h2, ?_⟩
  intro k hk
  rw [h3 k hk, ← hf k hk]

/-- On well-formed operands with `cols A = rows B`, `MatMul` returns, with a
nil error, a `rows A x cols B` matrix whose cell `(i, j)` is the left-fold
dot product of row `i` of `A` with column `j` of `B`. -/
theorem matMul_spec [Zero α] [Add α] [Mul α] (A B : Matrix α) (hA : WellFormed A)
    (hB : WellFormed B) (hcr : Matrix.cols A = Matrix.rows B) :
    ∃ m3, Matrix.MatMul A B = some (m3, none) ∧ Shape m3 (Matrix.rows A) (Matrix.cols B) ∧
      ∀ i j, i < Matrix.rows A → j < Matrix.cols B →
        ∃ row col, A[i]? = some row ∧ row.length = Matrix.cols A ∧
          col.length = Matrix.rows B ∧
          (∀ k, k < Matrix.rows B → col[k]? = getCell B k j) ∧
          getCell m3 i j = some (dotFold row col) := by
  obtain ⟨hsA, hrA, hcA⟩ := wellFormed_shape A hA
  obtain ⟨hsB, hrB, hcB⟩ := wellFormed_shape B hB
  obtain ⟨m3, hm3, hsh, hcells⟩ := fill_loops (Matrix.rows A) (Matrix.cols B)
    (fun i j => dotFold (A.getD i [])
      ((forLoop (Matrix.rows B : Int) (fun k v2 => do
        let x ← getCell B k j
        setIdx v2 k x) (makeSlice 0 (Matrix.rows B : Int))).getD []))
    (fun i j m3 => do
      let v1 ← A[i]?
      let v2 : RowVector α := makeSlice 0 (Matrix.rows B : Int)
      let v2 ← forLoop (Matrix.rows B : Int) (fun k v2 => do
        let x ← getCell B k j
        setIdx v2 k x) v2
      let d ← RowVector.Dot v1 v2
      setCell m3 i j d.1)
    (by
      intro i j m hi hj
      obtain ⟨row, hrow, hlen⟩ := shape_row A _ _ i hsA hi
      obtain ⟨col, hcol, hcl, _⟩ := matMul_column B _ _ j hsB hj
      have hd := dot_eq row col (by omega)
      simp only [Option.bind_eq_bind] at hcol
      simp [hrow, hcol, hd, List.getD_eq_getElem?_getD])
    (List.replicate (Matrix.rows A) (List.replicate (Matrix.cols B) 0))
    (replicate_shape _ _ 0)
  refine ⟨m3, ?_, hsh, ?_⟩
  · have hne : ¬ ((Matrix.cols A : Int) ≠ (Matrix.rows B : Int)) := by
      simp [hcr]
    simp only [Option.bind_eq_bind] at hm3
    simp only [Matrix.MatMul, getShape_wellFormed A hA, getShape_wellFormed B hB,
      Option.bind_eq_bind, Option.some_bind, hne, if_false, newMatrix_eq _ _ hrA hcB]
    rw [hm3]
    rfl
  · intro i j hi hj
    obtain ⟨row, hrow, hlen⟩ := shape_row A _ _ i hsA hi
    obtain ⟨col, hcol, hcl, hck⟩ := matMul_column B _ _ j hsB hj
    refine ⟨row, col, hrow, hlen, hcl, hck, ?_⟩
    rw [hcells i j hi hj]
    simp only [Option.bind_eq_bind] at hcol
    simp [hrow, hcol, List.getD_eq_getElem?_getD]

/-- The index-order sum `cellSum` agrees with the left fold over the zipped
row and column. -/
theorem cellSum_eq [Zero α] [Add α] [Mul α] (A B : Matrix α) (i j n : Nat)
    (row col : List α) (hrow : A[i]? = some row) (hlen : row.length = n)
    (hcl : col.length = n) (hck : ∀ k, k < n → col[k]? = getCell B k j) :
    ∀ m, m ≤ n → cellSum A B i j m = some (dotFold (row.take m) (col.take m)) := by
  intro m
  induction m with
  | zero => intro _; simp [cellSum, dotFold]
  | succ m ih =>
    intro hm
    have hm1 : m < row.length := by omega
    have hm2 : m < col.length := by omega
    have e1 : getCell A i m = some (row[m]) := by
      simp [getCell, hrow, hm1]
    have e2 : getCell B m j = some (col[m]) := by
      rw [← hck m (by omega)]
      simp [hm2]
    simp only [cellSum, ih (by omega), e1, e2, Option.bind_eq_bind, Option.some_bind,
      Option.pure_def, dotFold_take_succ row col m hm1 hm2]

/-- On well-formed operands with `cols A ≠ rows B`, `MatMul` returns the nil
matrix and its shape error. -/
theorem matMul_mismatch [Zero α] [Add α] [Mul α] (A B : Matrix α) (hA : WellFormed A)
    (hB : WellFormed B) (hcr : Matrix.cols A ≠ Matrix.rows B) :
    Matrix.MatMul A B = some ([], some "the shape of the two matrix are not match") := by
  have hne : (Matrix.cols A : Int) ≠ (Matrix.rows B : Int) := by
    exact_mod_cast hcr
  simp only [Matrix.MatMul, getShape_wellFormed A hA, getShape_wellFormed B hB,
    Option.bind_eq_bind, Option.some_bind]
  rw [if_pos hne]
  rfl

theorem getShape_of_shape (m : Matrix α) (r c : Nat) (h : Shape m r c) (hr : 0 < r)
    (hc : 0 < c) : Matrix.GetShape m = some ((r : Int), (c : Int)) := by
  obtain ⟨hw, e1, e2⟩ := shape_wellFormed m r c h hr hc
  rw [getShape_wellFormed m hw, e1, e2]

/-- Method `Cross` on two vectors of length 3. -/
theorem cross_three [Zero α] [Sub α] [Mul α] (a0 a1 a2 b0 b1 b2 : α) :
    RowVector.Cross [a0, a1, a2] [b0, b1, b2]
      = some ([a1 * b2 - a2 * b1, a2 * b0 - a0 * b2, a0 * b1 - a1 * b0], none) := by
  simp [RowVector.Cross, RowVector.GetShape, NewRowVector, makeSlice, setIdx]

/-- Method `Cross` on two vectors of length 2. -/
theorem cross_two [Zero α] [Sub α] [Mul α] (a0 a1 b0 b1 : α) :
    RowVector.Cross [a0, a1] [b0, b1] = some ([0, 0, a0 * b1 - a1 * b0], none) := by
  simp [RowVector.Cross, RowVector.GetShape, NewRowVector, makeSlice, setIdx]

/-- Method `Cross` on vectors of different lengths. -/
theorem cross_mismatch [Zero α] [Sub α] [Mul α] (a b : RowVector α)
    (h : a.length ≠ b.length) :
    RowVector.Cross a b = some ([], some "the shape of the two vectors are not equal") := by
  have hne : (RowVector.GetShape a).2 ≠ (RowVector.GetShape b).2 := by
    simpa [RowVector.GetShape] using h
  unfold RowVector.Cross
  rw [if_pos hne]

/-- Method `Cross` on vectors of one length that is neither 2 nor 3. -/
theorem cross_unsupported [Zero α] [Sub α] [Mul α] (a b : RowVector α)
    (h : a.length = b.length) (h2 : a.length ≠ 2) (h3 : a.length ≠ 3) :
    RowVector.Cross a b
      = some ([], some "we can only calc the 2 or 3 dimensions row vector") := by
  have hne : ¬ ((RowVector.GetShape a).2 ≠ (RowVector.GetShape b).2) := by
    simp [RowVector.GetShape, h]
  have hdim : (RowVector.GetShape a).2 ≠ 2 ∧ (RowVector.GetShape a).2 ≠ 3 := by
    simp only [RowVector.GetShape]
    constructor
    · exact_mod_cast h2
    · exact_mod_cast h3
  unfold RowVector.Cross
  rw [if_neg hne]
  simp only
  rw [if_pos hdim]

/-- Method `Cross` on vectors of one length that is 2 or 3 returns a nil error. -/
theorem cross_ok [Zero α] [Sub α] [Mul α] (a b : RowVector α)
    (h : a.length = b.length) (h23 : a.length = 2 ∨ a.length = 3) :
    ∃ v, RowVector.Cross a b = some (v, none) := by
  rcases h23 with h2 | h3
  · obtain ⟨a0, a1, rfl⟩ := List.length_eq_two.mp h2
    obtain ⟨b0, b1, rfl⟩ := List.length_eq_two.mp (h ▸ h2)
    exact ⟨_, cross_two a0 a1 b0 b1⟩
  · obtain ⟨a0, a1, a2, rfl⟩ := List.length_eq_three.mp h3
    obtain ⟨b0, b1, b2, rfl⟩ := List.length_eq_three.mp (h ▸ h3)
    exact ⟨_, cross_three a0 a1 a2 b0 b1 b2⟩

/-- The index-order sum `dotSum` agrees with the left fold over the zipped
vectors. -/
theorem dotSum_eq [Zero α] [Add α] [Mul α] (a b : RowVector α) :
    ∀ m, m ≤ a.length → m ≤ b.length →
      dotSum a b m = some (dotFold (a.take m) (b.take m)) := by
  intro m
  induction m with
  | zero => intro _ _; simp [dotSum, dotFold]
  | succ m ih =>
    intro hm hm2
    have h1 : m < a.length := by omega
    have h2 : m < b.length := by omega
    simp only [dotSum, ih (by omega) (by omega), List.getElem?_eq_getElem h1,
      List.getElem?_eq_getElem h2, Option.bind_eq_bind, Option.some_bind, Option.pure_def,
      dotFold_take_succ a b m h1 h2]

/-- The accumulation of `Length` is the left fold of `Dot` on `v` and `v`. -/
theorem foldl_sq_eq_zip [Add α] [Mul α] :
    ∀ (v : List α) (acc : α),
      v.foldl (fun l x => l + x * x) acc
        = (List.zip v v).foldl (fun acc p => acc + p.1 * p.2) acc := by
  intro v
  induction v with
  | nil => intro acc; simp
  | cons x xs ih =>
    intro acc
    simp only [List.foldl_cons, List.zip_cons_cons]
    exact ih _

theorem foldl_sq_replicate_zero [Zero α] [Add α] [Mul α] (h0 : (0 : α) + 0 * 0 = 0) :
    ∀ n : Nat, (List.replicate n (0 : α)).foldl (fun l x => l + x * x) 0 = 0 := by
  intro n
  induction n with
  | zero => simp
  | succ n ih =>
    simp only [List.replicate_succ, List.foldl_cons, h0]
    exact ih

theorem goCopy_same_length {β : Type} (dst src : List β) (h : dst.length = src.length) :
    goCopy dst src = src := by
  simp [goCopy, h]

theorem newRowVector_fst [Zero α] (n : Nat) :
    (NewRowVector (n : Int) : RowVector α × Option String).1 = List.replicate n 0 := by
  cases n with
  | zero => simp [NewRowVector]
  | succ n =>
    have h : ¬ (((n + 1 : Nat) : Int) ≤ 0) := by omega
    simp only [NewRowVector, if_neg h, makeSlice, Int.toNat_ofNat]

theorem take_succ_set (r : List α) :
    ∀ (i : Nat) (y : α), i < r.length → (r.set i y).take (i + 1) = r.take i ++ [y] := by
  induction r with
  | nil => intro i y h; simp at h
  | cons x xs ih =>
    intro i y h
    cases i with
    | zero => simp
    | succ i =>
      simp only [List.length_cons, Nat.add_lt_add_iff_right] at h
      simp [ih i y h]

/-- The loop of vector `Add` and `Minus`, started at index `i`: positions
`i..` of `r` are overwritten with `op a[k] b[k]`. -/
theorem rangeLoopFrom_zipWith (op : α → α → α) (b : List α) :
    ∀ (a : List α) (i : Nat) (r : List α), r.length = b.length →
      i + a.length = b.length →
      rangeLoopFrom (fun i v rv3 => do
          let x ← b[i]?
          setIdx rv3 i (op v x)) i a r
        = some (r.take i ++ List.zipWith op a (b.drop i)) := by
  intro a
  induction a with
  | nil =>
    intro i r hr hi
    simp only [List.length_nil, Nat.add_zero] at hi
    simp [rangeLoopFrom, List.take_of_length_le (show r.length ≤ i by omega)]
  | cons v vs ih =>
    intro i r hr hi
    simp only [List.length_cons] at hi
    have hib : i < b.length := by omega
    have hir : i < r.length := by omega
    rw [List.drop_eq_getElem_cons hib]
    simp only [Option.bind_eq_bind] at ih
    simp only [rangeLoopFrom, List.getElem?_eq_getElem hib, Option.bind_eq_bind,
      Option.some_bind, setIdx_lt r i _ hir, List.zipWith_cons_cons]
    rw [ih (i + 1) (r.set i (op v b[i])) (by simpa using hr) (by omega),
      take_succ_set r i _ hir]
    simp

/-- The scaling loop of `(*RowVector).Mul` multiplies every element by `c`. -/
theorem rowMul_loop [Mul α] (c : α) (v : List α) :
    forLoop (v.length : Int) (fun i t => do
        let x ← t[i]?
        setIdx t i (x * c)) v = some (v.map (fun x => x * c)) := by
  obtain ⟨t, ht, hlen, hdone, hrest⟩ := forLoop_inv
    (fun (n : Nat) (t : List α) =>
      t.length = v.length ∧ (∀ k, k < n → t[k]? = (v[k]?).map (fun x => x * c)) ∧
        ∀ k, n ≤ k → t[k]? = v[k]?)
    (fun i t => do
        let x ← t[i]?
        setIdx t i (x * c)) v.length v
    ⟨rfl, fun k hk => absurd hk (Nat.not_lt_zero k), fun _ _ => rfl⟩
    (by
      intro i t hi ⟨hl, hdone, hrest⟩
      have hit : i < t.length := by omega
      have hti : t[i]? = some (v[i]) := by
        rw [hrest i (Nat.le_refl i)]
        exact List.getElem?_eq_getElem hi
      refine ⟨t.set i (v[i] * c), by simp [hti, setIdx, hit], by simpa using hl, ?_, ?_⟩
      · intro k hk
        rcases Nat.lt_succ_iff_lt_or_eq.mp hk with h1 | h1
        · rw [List.getElem?_set_ne (by omega)]
          exact hdone k h1
        · subst h1
          simp [hit, hi]
      · intro k hk
        rw [List.getElem?_set_ne (by omega)]
        exact hrest k (by omega))
  rw [ht]
  congr 1
  apply List.ext_getElem?
  intro k
  by_cases hk : k < v.length
  · rw [hdone k hk, List.getElem?_map]
  · rw [hrest k (by omega), List.getElem?_map]
    simp [List.getElem?_eq_none (show v.length ≤ k by omega)]

/-- Method `(*RowVector).Mul` never panics and maps `x` to `x * c`. -/
theorem rowMul_eq [Zero α] [Mul α] (v : RowVector α) (c : α) :
    RowVector.Mul v c = some (v.map (fun x => x * c)) := by
  have h1 : goCopy (makeSlice (0 : α) (v.length : Int)) v = v :=
    goCopy_same_length _ _ (makeSlice_length 0 v.length)
  have h2 := rowMul_loop c v
  simp only [Option.bind_eq_bind] at h2
  simp only [RowVector.Mul, RowVector.GetShape, h1, Option.bind_eq_bind, h2, Option.some_bind]
  rw [goCopy_same_length _ _ (by simp)]
  rfl

/-- On vectors of equal length `Add` returns the element-wise sum. -/
theorem vecAdd_eq [Zero α] [Add α] (a b : RowVector α) (h : a.length = b.length) :
    RowVector.Add a b = some (List.zipWith (fun x y => x + y) a b, none) := by
  have hne : ¬ ((RowVector.GetShape a).2 ≠ (RowVector.GetShape b).2) := by
    simp [RowVector.GetShape, h]
  have key := rangeLoopFrom_zipWith (fun x y => x + y) b a 0 (List.replicate a.length 0)
    (by simp [h]) (by omega)
  simp only [Option.bind_eq_bind, List.take_zero, List.nil_append, List.drop_zero] at key
  unfold RowVector.Add
  rw [if_neg hne]
  simp only [RowVector.GetShape, newRowVector_fst, rangeLoop, Option.bind_eq_bind, key,
    Option.some_bind]
  rfl

/-- On vectors of equal length `Minus` returns the element-wise difference. -/
theorem vecMinus_eq [Zero α] [Sub α] (a b : RowVector α) (h : a.length = b.length) :
    RowVector.Minus a b = some (List.zipWith (fun x y => x - y) a b, none) := by
  have hne : ¬ ((RowVector.GetShape a).2 ≠ (RowVector.GetShape b).2) := by
    simp [RowVector.GetShape, h]
  have key := rangeLoopFrom_zipWith (fun x y => x - y) b a 0 (List.replicate a.length 0)
    (by simp [h]) (by omega)
  simp only [Option.bind_eq_bind, List.take_zero, List.nil_append, List.drop_zero] at key
  unfold RowVector.Minus
  rw [if_neg hne]
  simp only [RowVector.GetShape, newRowVector_fst, rangeLoop, Option.bind_eq_bind, key,
    Option.some_bind]
  rfl

theorem vecAdd_ne [Zero α] [Add α] (a b : RowVector α) (h : a.length ≠ b.length) :
    RowVector.Add a b = some ([], some "the dimensions of the two vectors are not equal") := by
  have hne : (RowVector.GetShape a).2 ≠ (RowVector.GetShape b).2 := by
    simpa [RowVector.GetShape] using h
  unfold RowVector.Add
  rw [if_pos hne]

theorem vecMinus_ne [Zero α] [Sub α] (a b : RowVector α) (h : a.length ≠ b.length) :
    RowVector.Minus a b = some ([], some "the dimensions of the two vector are not equal") := by
  have hne : (RowVector.GetShape a).2 ≠ (RowVector.GetShape b).2 := by
    simpa [RowVector.GetShape] using h
  unfold RowVector.Minus
  rw [if_pos hne]

/-- The loops of matrix `Add` and `Minus`: every cell of the result is
`op` of the two source cells. -/
theorem zip_loops [Zero α] (op : α → α → α) (A B : Matrix α) (r c : Nat)
    (hA : Shape A r c) (hB : Shape B r c) (m0 : Matrix α) (h0 : Shape m0 r c) :
    ∃ m, forLoop (r : Int) (fun i m3 => forLoop (c : Int) (fun j m3 =>
        (getCell A i j).bind fun x => (getCell B i j).bind fun y =>
          setCell m3 i j (op x y)) m3) m0 = some m ∧
      Shape m r c ∧
      ∀ i j, i < r → j < c →
        ∃ x y, getCell A i j = some x ∧ getCell B i j = some y ∧
          getCell m i j = some (op x y) := by
  obtain ⟨m, hm, hsh, hcells⟩ := fill_loops r c
    (fun i j => op ((getCell A i j).getD 0) ((getCell B i j).getD 0))
    (fun i j m3 => (getCell A i j).bind fun x => (getCell B i j).bind fun y =>
      setCell m3 i j (op x y))
    (by
      intro i j m hi hj
      obtain ⟨x, hx⟩ := shape_getCell A _ _ i j hA hi hj
      obtain ⟨y, hy⟩ := shape_getCell B _ _ i j hB hi hj
      simp [hx, hy])
    m0 h0
  refine ⟨m, hm, hsh, ?_⟩
  intro i j hi hj
  obtain ⟨x, hx⟩ := shape_getCell A _ _ i j hA hi hj
  obtain ⟨y, hy⟩ := shape_getCell B _ _ i j hB hi hj
  refine ⟨x, y, hx, hy, ?_⟩
  rw [hcells i j hi hj, hx, hy]
  rfl

/-- Matrix `Add` on well-formed operands of one shape. -/
theorem matAdd_spec [Zero α] [Add α] (A B : Matrix α) (hA : WellFormed A) (hB : WellFormed B)
    (hr : Matrix.rows A = Matrix.rows B) (hc : Matrix.cols A = Matrix.cols B) :
    ∃ m3, Matrix.Add A B = some (m3, none) ∧ Shape m3 (Matrix.rows A) (Matrix.cols A) ∧
      ∀ i j, i < Matrix.rows A → j < Matrix.cols A →
        ∃ x y, getCell A i j = some x ∧ getCell B i j = some y ∧
          getCell m3 i j = some (x + y) := by
  obtain ⟨hsA, hrA, hcA⟩ := wellFormed_shape A hA
  obtain ⟨hsB, _, _⟩ := wellFormed_shape B hB
  rw [← hr, ← hc] at hsB
  obtain ⟨m3, hm3, hsh, hcells⟩ := zip_loops (fun x y => x + y) A B _ _ hsA hsB
    (List.replicate (Matrix.rows A) (List.replicate (Matrix.cols A) 0)) (replicate_shape _ _ 0)
  refine ⟨m3, ?_, hsh, hcells⟩
  have hne : ¬ (((Matrix.rows A : Int), (Matrix.cols A : Int))
      ≠ ((Matrix.rows B : Int), (Matrix.cols B : Int))) := by
    simp [hr, hc]
  simp only [Matrix.Add, getShape_wellFormed A hA, getShape_wellFormed B hB,
    Option.bind_eq_bind, Option.some_bind, hne, if_false, newMatrix_eq _ _ hrA hcA]
  rw [hm3]
  rfl

/-- Matrix `Minus` on well-formed operands of one shape. -/
theorem matMinus_spec [Zero α] [Sub α] (A B : Matrix α) (hA : WellFormed A)
    (hB : WellFormed B) (hr : Matrix.rows A = Matrix.rows B)
    (hc : Matrix.cols A = Matrix.cols B) :
    ∃ m3, Matrix.Minus A B = some (m3, none) ∧ Shape m3 (Matrix.rows A) (Matrix.cols A) ∧
      ∀ i j, i < Matrix.rows A → j < Matrix.cols A →
        ∃ x y, getCell A i j = some x ∧ getCell B i j = some y ∧
          getCell m3 i j = some (x - y) := by
  obtain ⟨hsA, hrA, hcA⟩ := wellFormed_shape A hA
  obtain ⟨hsB, _, _⟩ := wellFormed_shape B hB
  rw [← hr, ← hc] at hsB
  obtain ⟨m3, hm3, hsh, hcells⟩ := zip_loops (fun x y => x - y) A B _ _ hsA hsB
    (List.replicate (Matrix.rows A) (List.replicate (Matrix.cols A) 0)) (replicate_shape _ _ 0)
  refine ⟨m3, ?_, hsh, hcells⟩
  have hne : ¬ (((Matrix.rows A : Int), (Matrix.cols A : Int))
      ≠ ((Matrix.rows B : Int), (Matrix.cols B : Int))) := by
    simp [hr, hc]
  simp only [Matrix.Minus, getShape_wellFormed A hA, getShape_wellFormed B hB,
    Option.bind_eq_bind, Option.some_bind, hne, if_false, newMatrix_eq _ _ hrA hcA]
  rw [hm3]
  rfl

theorem shape_pair_ne (A B : Matrix α)
    (h : ¬ (Matrix.rows A = Matrix.rows B ∧ Matrix.cols A = Matrix.cols B)) :
    ((Matrix.rows A : Int), (Matrix.cols A : Int))
      ≠ ((Matrix.rows B : Int), (Matrix.cols B : Int)) := by
  intro e
  simp only [Prod.mk.injEq, Nat.cast_inj] at e
  exact h e

/-- Matrix `Add` on well-formed operands of different shapes. -/
theorem matAdd_mismatch [Zero α] [Add α] (A B : Matrix α) (hA : WellFormed A)
    (hB : WellFormed B)
    (h : ¬ (Matrix.rows A = Matrix.rows B ∧ Matrix.cols A = Matrix.cols B)) :
    Matrix.Add A B = some ([], some "the shape of the two matrix are not equal") := by
  simp only [Matrix.Add, getShape_wellFormed A hA, getShape_wellFormed B hB,
    Option.bind_eq_bind, Option.some_bind]
  rw [if_pos (shape_pair_ne A B h)]
  rfl

/-- Matrix `Minus` on well-formed operands of different shapes. -/
theorem matMinus_mismatch [Zero α] [Sub α] (A B : Matrix α) (hA : WellFormed A)
    (hB : WellFormed B)
    (h : ¬ (Matrix.rows A = Matrix.rows B ∧ Matrix.cols A = Matrix.cols B)) :
    Matrix.Minus A B = some ([], some "the shape of the two matrix are not equal") := by
  simp only [Matrix.Minus, getShape_wellFormed A hA, getShape_wellFormed B hB,
    Option.bind_eq_bind, Option.some_bind]
  rw [if_pos (shape_pair_ne A B h)]
  rfl

/-- Partial-correctness rule for a counted loop: if the loop returned, an
invariant that holds at entry and is kept by every iteration that returns
holds at exit. -/
theorem forLoop_returned {σ : Type} (P : Nat → σ → Prop) (body : Nat → σ → Option σ) :
    ∀ (n : Nat) (s0 s : σ), P 0 s0 →
      (∀ i t t2, i < n → P i t → body i t = some t2 → P (i + 1) t2) →
      forLoop (n : Int) body s0 = some s → P n s := by
  intro n
  induction n with
  | zero =>
    intro s0 s h0 _ hs
    simp only [forLoop, Int.toNat_ofNat, List.range_zero, List.foldlM_nil] at hs
    cases hs
    exact h0
  | succ n ih =>
    intro s0 s h0 hstep hs
    simp only [forLoop, Int.toNat_ofNat, List.range_succ, List.foldlM_append,
      List.foldlM_cons, List.foldlM_nil] at hs
    cases hprev : (List.range n).foldlM (fun s i => body i s) s0 with
    | none => simp [hprev] at hs
    | some t =>
      simp only [hprev, Option.bind_eq_bind, Option.some_bind] at hs
      have ht : P n t := ih s0 t h0
        (fun i u u2 hi hp hb => hstep i u u2 (Nat.lt_succ_of_lt hi) hp hb)
        (by simpa [forLoop] using hprev)
      cases hb : body n t with
      | none => simp [hb] at hs
      | some t2 =>
        simp only [hb, Option.some_bind, Option.pure_def, Option.some.injEq] at hs
        subst hs
        exact hstep n t t2 (Nat.lt_succ_self n) ht hb

/-- The gather loop, when it returns, has read every cell it stored. -/
theorem gather_returned (n : Nat) (g : Nat → Option α) (v0 v : List α) (h0 : v0.length = n)
    (hv : forLoop (n : Int) (fun k v => (g k).bind fun x => setIdx v k x) v0 = some v) :
    v.length = n ∧ ∀ k, k < n → ∃ x, g k = some x ∧ v[k]? = some x := by
  refine forLoop_returned
    (fun (m : Nat) (v : List α) => v.length = n ∧ ∀ k, k < m → ∃ x, g k = some x ∧ v[k]? = some x)
    (fun k v => (g k).bind fun x => setIdx v k x) n v0 v
    ⟨h0, fun k hk => absurd hk (Nat.not_lt_zero k)⟩ ?_ hv
  intro k t t2 hk ⟨hlen, hdone⟩ hb
  have hk2 : k < t.length := by omega
  cases hg : g k with
  | none => simp [hg] at hb
  | some x =>
    simp only [hg, Option.some_bind, setIdx_lt t k x hk2, Option.some.injEq] at hb
    subst hb
    refine ⟨by simpa using hlen, ?_⟩
    intro k2 hk3
    rcases Nat.lt_succ_iff_lt_or_eq.mp hk3 with h | h
    · obtain ⟨y, hy, hy2⟩ := hdone k2 h
      exact ⟨y, hy, by rw [List.getElem?_set_ne (by omega)]; exact hy2⟩
    · subst h
      exact ⟨x, hg, by simp [hk2]⟩

/-- The doubly nested fill loop, when it returns: every value `g i j` was
computed without a panic and is what cell `(i, j)` holds. -/
theorem fill_loops_returned (r c : Nat) (g : Nat → Nat → Option α)
    (body : Nat → Nat → Matrix α → Option (Matrix α))
    (hbody : ∀ i j m, i < r → j < c → body i j m = (g i j).bind fun x => setCell m i j x)
    (m0 m : Matrix α) (h0 : Shape m0 r c)
    (hm : forLoop (r : Int) (fun i m => forLoop (c : Int) (fun j m => body i j m) m) m0
      = some m) :
    Shape m r c ∧ ∀ i j, i < r → j < c → ∃ x, g i j = some x ∧ getCell m i j = some x := by
  refine forLoop_returned
    (fun (n : Nat) (m : Matrix α) =>
      Shape m r c ∧ ∀ i j, i < n → j < c → ∃ x, g i j = some x ∧ getCell m i j = some x)
    (fun i m => forLoop (c : Int) (fun j m => body i j m) m) r m0 m
    ⟨h0, fun i j hi _ => absurd hi (Nat.not_lt_zero i)⟩ ?_ hm
  intro i t t2 hi ⟨hs, hdone⟩ hrow
  have inner := forLoop_returned
    (fun (n : Nat) (m : Matrix α) =>
      Shape m r c ∧
        (∀ i2 j, i2 < i → j < c → ∃ x, g i2 j = some x ∧ getCell m i2 j = some x) ∧
        ∀ j, j < n → ∃ x, g i j = some x ∧ getCell m i j = some x)
    (fun j m => body i j m) c t t2
    ⟨hs, hdone, fun j hj => absurd hj (Nat.not_lt_zero j)⟩ ?_ hrow
  · obtain ⟨hs2, hold, hnew⟩ := inner
    refine ⟨hs2, ?_⟩
    intro i2 j hi2 hj
    rcases Nat.lt_succ_iff_lt_or_eq.mp hi2 with h | h
    · exact hold i2 j h hj
    · subst h
      exact hnew j hj
  · intro j u u2 hj ⟨hs1, hold, hnew⟩ hb
    replace hb : body i j u = some u2 := hb
    rw [hbody i j u hi hj] at hb
    cases hg : g i j with
    | none => simp [hg] at hb
    | some x =>
      simp only [hg, Option.some_bind] at hb
      obtain ⟨m2, hm2, hs2, hget, hother⟩ := setCell_spec u r c i j x hs1 hi hj
      rw [hm2] at hb
      cases hb
      refine ⟨hs2, ?_, ?_⟩
      · intro i2 j2 hi2 hj2
        rw [hother i2 j2 (Or.inl (by omega))]
        exact hold i2 j2 hi2 hj2
      · intro j2 hj2
        rcases Nat.lt_succ_iff_lt_or_eq.mp hj2 with h | h
        · rw [hother i j2 (Or.inr (by omega))]
          exact hnew j2 h
        · subst h
          exact ⟨x, hg, hget⟩

theorem getShape_some (m : Matrix α) (s : Int × Int) (h : Matrix.GetShape m = some s) :
    ∃ row0, m[0]? = some row0 ∧ s = ((m.length : Int), (row0.length : Int)) ∧
      0 < m.length ∧ Matrix.cols m = row0.length := by
  cases m with
  | nil => simp [Matrix.GetShape] at h
  | cons row0 rest =>
    simp only [Matrix.GetShape, List.getElem?_cons_zero, Option.bind_eq_bind, Option.some_bind,
      Option.pure_def, Option.some.injEq] at h
    exact ⟨row0, by simp, h.symm, by simp, by simp [Matrix.cols]⟩

theorem list_ext_lt (l1 l2 : List α) (n : Nat) (h1 : l1.length = n) (h2 : l2.length = n)
    (h : ∀ k, k < n → l1[k]? = l2[k]?) : l1 = l2 := by
  apply List.ext_getElem?
  intro k
  by_cases hk : k < n
  · exact h k hk
  · rw [List.getElem?_eq_none (by omega), List.getElem?_eq_none (by omega)]

/-- Total-correctness rule for two nested counted loops, with an invariant
indexed by the cell the loops stand before. -/
theorem nested_inv {σ : Type} (P : Nat → Nat → σ → Prop) (r c : Nat)
    (body : Nat → Nat → σ → Option σ) (s0 : σ) (h0 : P 0 0 s0)
    (hstep : ∀ i j s, i < r → j < c → P i j s → ∃ s2, body i j s = some s2 ∧ P i (j + 1) s2)
    (hrow : ∀ i s, i < r → P i c s → P (i + 1) 0 s) :
    ∃ s, forLoop (r : Int) (fun i s => forLoop (c : Int) (fun j s => body i j s) s) s0 = some s ∧
      P r 0 s := by
  refine forLoop_inv (fun i s => P i 0 s)
    (fun i s => forLoop (c : Int) (fun j s => body i j s) s) r s0 h0 ?_
  intro i s hi hP
  obtain ⟨s2, hs2, hP2⟩ := forLoop_inv (fun j s => P i j s) (fun j s => body i j s) c s hP
    (fun j t hj hPt => hstep i j t hi hj hPt)
  exact ⟨s2, hs2, hrow i s2 hi hP2⟩

theorem read_length (mem : List α) (h : RowRef) (hb : h.off + h.len ≤ mem.length) :
    (RowRef.read mem h).length = h.len := by
  simp only [RowRef.read, List.length_take, List.length_drop]
  omega

theorem read_getElem? (mem : List α) (h : RowRef) (k : Nat) (hk : k < h.len) :
    (RowRef.read mem h)[k]? = mem[h.off + k]? := by
  simp [RowRef.read, List.getElem?_take, hk, List.getElem?_drop]

/-- The headers of a well-formed matrix in memory: there is a row 0, it has
at least one cell, and every row is as long as row 0. -/
theorem wf_headers (mem : List α) (m : List RowRef) (hb : InBounds mem m)
    (hw : WellFormed (deref mem m)) :
    ∃ h0, m[0]? = some h0 ∧ 0 < h0.len ∧ (∀ h ∈ m, h.len = h0.len) ∧
      Matrix.rows (deref mem m) = m.length ∧ Matrix.cols (deref mem m) = h0.len := by
  cases m with
  | nil => exact absurd hw.1 (by simp [deref])
  | cons h0 rest =>
    have e0 : (RowRef.read mem h0).length = h0.len :=
      read_length mem h0 (hb h0 (List.mem_cons_self _ _))
    obtain ⟨_, hpos, hall⟩ := hw
    simp only [deref, List.map_cons, List.headD_cons] at hpos hall
    refine ⟨h0, by simp, by omega, ?_, by simp [Matrix.rows, deref],
      by simp [Matrix.cols, deref, e0]⟩
    intro h hh
    have e1 := hall (RowRef.read mem h) (by
      rw [← List.map_cons]
      exact List.mem_map_of_mem _ hh)
    rw [read_length mem h (hb h hh), e0] at e1
    exact e1

/-- Headers with a row 0 of at least one cell and all rows of one length hold
a well-formed matrix over any memory they lie in. -/
theorem headers_wf (mem : List α) (m : List RowRef) (h0 : RowRef) (hb : InBounds mem m)
    (hm0 : m[0]? = some h0) (hpos : 0 < h0.len) (hall : ∀ h ∈ m, h.len = h0.len) :
    WellFormed (deref mem m) := by
  cases m with
  | nil => simp at hm0
  | cons g rest =>
    simp only [List.getElem?_cons_zero, Option.some.injEq] at hm0
    subst hm0
    have e0 : (RowRef.read mem g).length = g.len :=
      read_length mem g (hb g (List.mem_cons_self _ _))
    refine ⟨by simp [deref], by simp [deref, e0, hpos], ?_⟩
    intro row hrow
    simp only [deref, List.map_cons, List.headD_cons]
    obtain ⟨h, hh, rfl⟩ := List.mem_map.mp hrow
    rw [read_length mem h (hb h hh), e0]
    exact hall h hh

theorem disjoint_get (m : List RowRef) (hd : RowsDisjoint m) (k i : Nat) (h g : RowRef)
    (hk : m[k]? = some h) (hi : m[i]? = some g) (hne : k ≠ i) :
    h.off + h.len ≤ g.off ∨ g.off + g.len ≤ h.off := by
  obtain ⟨hk1, hk2⟩ := List.getElem?_eq_some.mp hk
  obtain ⟨hi1, hi2⟩ := List.getElem?_eq_some.mp hi
  have key := List.pairwise_iff_getElem.mp hd
  rcases Nat.lt_or_gt_of_ne hne with hlt | hgt
  · have := key k i hk1 hi1 hlt
    rw [hk2, hi2] at this
    exact this
  · have := key i k hi1 hk1 hgt
    rw [hk2, hi2] at this
    exact this.symm

/-- The loops of `(*Matrix).Mul` over headers with a row 0 and all rows of one
length: they return, keep the size of the memory and, when no two rows share
a cell, leave `x * c` in every cell of a row and every other cell as it was. -/
theorem memScale_loops [Mul α] (mem : List α) (m : List RowRef) (c : α) (h0 : RowRef)
    (hb : InBounds mem m) (hall : ∀ h ∈ m, h.len = h0.len) :
    ∃ mem2, forLoop (m.length : Int) (fun i mem =>
        forLoop (h0.len : Int) (fun j mem =>
          (m[i]?).bind fun h =>
            if j < h.len then (mem[h.off + j]?).bind fun x => setIdx mem (h.off + j) (x * c)
            else none) mem) mem = some mem2 ∧
      mem2.length = mem.length ∧
      (RowsDisjoint m →
        (∀ a, scaledAt m m.length 0 a → mem2[a]? = (mem[a]?).map (fun x => x * c)) ∧
        (∀ a, ¬ scaledAt m m.length 0 a → mem2[a]? = mem[a]?)) := by
  refine nested_inv
    (fun i j (s : List α) => s.length = mem.length ∧
      (RowsDisjoint m →
        (∀ a, scaledAt m i j a → s[a]? = (mem[a]?).map (fun x => x * c)) ∧
        (∀ a, ¬ scaledAt m i j a → s[a]? = mem[a]?)))
    m.length h0.len _ mem ?_ ?_ ?_
  · refine ⟨rfl, fun _ => ⟨?_, fun _ _ => rfl⟩⟩
    intro a ha
    rcases ha with ⟨k, _, hk, _⟩ | ⟨_, _, h1, h2⟩
    · omega
    · omega
  · intro i j s hi hj ⟨hlen, hcont⟩
    have hmi : m[i]? = some (m[i]) := List.getElem?_eq_getElem hi
    have hmem : m[i] ∈ m := List.getElem_mem hi
    have hl : (m[i]).len = h0.len := hall _ hmem
    have hbi := hb _ hmem
    have ha0 : (m[i]).off + j < s.length := by omega
    have hj2 : j < (m[i]).len := by omega
    refine ⟨s.set ((m[i]).off + j) (s[(m[i]).off + j] * c), ?_, by simpa using hlen, ?_⟩
    · simp only [hmi, Option.some_bind, hj2, if_true, List.getElem?_eq_getElem ha0,
        setIdx_lt s _ _ ha0]
    · intro hd
      obtain ⟨hdone, hrest⟩ := hcont hd
      have hnot : ¬ scaledAt m i j ((m[i]).off + j) := by
        rintro (⟨k, h, hk, hmk, h1, h2⟩ | ⟨h, hmh, h1, h2⟩)
        · rcases disjoint_get m hd k i h (m[i]) hmk hmi (by omega) with h3 | h3
          · omega
          · omega
        · rw [hmi] at hmh
          cases hmh
          omega
      have horig : mem[(m[i]).off + j]? = some (s[(m[i]).off + j]) := by
        rw [← hrest _ hnot]
        exact List.getElem?_eq_getElem ha0
      constructor
      · intro a ha
        by_cases hEq : a = (m[i]).off + j
        · subst hEq
          rw [List.getElem?_set_self ha0, horig]
          rfl
        · rw [List.getElem?_set_ne (Ne.symm hEq)]
          apply hdone
          rcases ha with h1 | ⟨h, hmh, h1, h2⟩
          · exact Or.inl h1
          · refine Or.inr ⟨h, hmh, h1, ?_⟩
            rw [hmi] at hmh
            cases hmh
            omega
      · intro a ha
        have hEq : a ≠ (m[i]).off + j := by
          intro e
          apply ha
          exact Or.inr ⟨m[i], hmi, by omega, by omega⟩
        rw [List.getElem?_set_ne (Ne.symm hEq)]
        apply hrest
        intro hs
        apply ha
        rcases hs with h1 | ⟨h, hmh, h1, h2⟩
        · exact Or.inl h1
        · exact Or.inr ⟨h, hmh, h1, by omega⟩
  · intro i s hi ⟨hlen, hcont⟩
    have hmi : m[i]? = some (m[i]) := List.getElem?_eq_getElem hi
    have hl : (m[i]).len = h0.len := hall _ (List.getElem_mem hi)
    refine ⟨hlen, fun hd => ?_⟩
    obtain ⟨hdone, hrest⟩ := hcont hd
    constructor
    · intro a ha
      apply hdone
      rcases ha with ⟨k, h, hk, hmk, h1, h2⟩ | ⟨_, _, h1, h2⟩
      · rcases Nat.lt_succ_iff_lt_or_eq.mp hk with hlt | heq
        · exact Or.inl ⟨k, h, hlt, hmk, h1, h2⟩
        · subst heq
          rw [hmi] at hmk
          cases hmk
          exact Or.inr ⟨m[k], hmi, h1, by omega⟩
      · omega
    · intro a ha
      apply hrest
      intro hs
      apply ha
      rcases hs with ⟨k, h, hk, hmk, h1, h2⟩ | ⟨h, hmh, h1, h2⟩
      · exact Or.inl ⟨k, h, by omega, hmk, h1, h2⟩
      · refine Or.inl ⟨i, h, by omega, hmh, h1, ?_⟩
        rw [hmi] at hmh
        cases hmh
        omega

/-- Method `(*Matrix).Mul` on a well-formed receiver in memory: it never
panics, returns the same headers over a memory of the same size, and, when no
two rows share a cell, every element `x` of the receiver has become `x * c`. -/
theorem memScale_spec [Mul α] (mem : List α) (m : List RowRef) (c : α)
    (hb : InBounds mem m) (hw : WellFormed (deref mem m)) :
    ∃ mem2, Matrix.Mul mem m c = some (mem2, m) ∧ mem2.length = mem.length ∧
      (RowsDisjoint m →
        deref mem2 m = (deref mem m).map (fun row => row.map (fun x => x * c))) := by
  obtain ⟨h0, hm0, _, hall, _, _⟩ := wf_headers mem m hb hw
  obtain ⟨mem2, hrun, hlen, hcont⟩ := memScale_loops mem m c h0 hb hall
  have hcopy : goCopy (makeSlice (⟨0, 0⟩ : RowRef) (m.length : Int)) m = m :=
    goCopy_same_length _ _ (makeSlice_length _ m.length)
  refine ⟨mem2, ?_, hlen, ?_⟩
  · simp only [Matrix.Mul, refShape, hm0, Option.bind_eq_bind, Option.some_bind,
      Option.pure_def, hcopy, hrun]
    rw [goCopy_same_length m m rfl]
  · intro hd
    obtain ⟨hdone, _⟩ := hcont hd
    simp only [deref, List.map_map]
    apply List.map_congr_left
    intro h hh
    simp only [Function.comp]
    obtain ⟨k, hk⟩ := List.getElem?_of_mem hh
    have hk2 : k < m.length := (List.getElem?_eq_some.mp hk).1
    apply List.ext_getElem?
    intro t
    by_cases ht : t < h.len
    · rw [read_getElem? mem2 h t ht, List.getElem?_map, read_getElem? mem h t ht]
      exact hdone _ (Or.inl ⟨k, h, hk2, hk, by omega, by omega⟩)
    · have e1 : (RowRef.read mem2 h).length ≤ t := by
        have := List.length_take_le h.len (mem2.drop h.off)
        simp only [RowRef.read]
        omega
      have e2 : ((RowRef.read mem h).map (fun x => x * c)).length ≤ t := by
        have := List.length_take_le h.len (mem.drop h.off)
        simp only [RowRef.read, List.length_map]
        omega
      rw [List.getElem?_eq_none e1, List.getElem?_eq_none e2]

/-- The shape read from the headers is `GetShape` of the matrix they hold. -/
theorem refShape_eq (mem : List α) (m : List RowRef) (hb : InBounds mem m) :
    refShape m = Matrix.GetShape (deref mem m) := by
  cases m with
  | nil => simp [refShape, Matrix.GetShape, deref]
  | cons h0 rest =>
    have e0 : (RowRef.read mem h0).length = h0.len :=
      read_length mem h0 (hb h0 (List.mem_cons_self _ _))
    simp [refShape, Matrix.GetShape, deref, e0]

theorem inBounds_of_length (mem mem2 : List α) (m : List RowRef) (hb : InBounds mem m)
    (hlen : mem2.length = mem.length) : InBounds mem2 m := by
  intro h hh
  rw [hlen]
  exact hb h hh

/-- Over a memory of the same size the same headers hold a matrix that is
well-formed as before and has the same shape. -/
theorem wf_of_length (mem mem2 : List α) (m : List RowRef) (hb : InBounds mem m)
    (hw : WellFormed (deref mem m)) (hlen : mem2.length = mem.length) :
    WellFormed (deref mem2 m) ∧
      Matrix.GetShape (deref mem2 m) = Matrix.GetShape (deref mem m) := by
  obtain ⟨h0, hm0, hpos, hall, hr, hc⟩ := wf_headers mem m hb hw
  have hb2 := inBounds_of_length mem mem2 m hb hlen
  have hw2 := headers_wf mem2 m h0 hb2 hm0 hpos hall
  obtain ⟨_, _, _, _, hr2, hc2⟩ := wf_headers mem2 m hb2 hw2
  refine ⟨hw2, ?_⟩
  rw [getShape_wellFormed _ hw2, getShape_wellFormed _ hw, hr, hr2]
  have : Matrix.cols (deref mem2 m) = Matrix.cols (deref mem m) := by
    obtain ⟨g0, hg0, _, _, _, hc3⟩ := wf_headers mem2 m hb2 hw2
    rw [hc3, hc]
    rw [hm0] at hg0
    cases hg0
    rfl
  rw [this]

theorem fmul_comm (x y : F64) : x * y = y * x := by
  show F64.fmul x y = F64.fmul y x
  cases x <;> cases y <;>
    simp only [F64.fmul, Bool.xor_comm, Nat.mul_comm, Int.add_comm]

theorem fneg_round (s : Bool) (M : Nat) (E : Int) :
    F64.fneg (F64.round s M E) = F64.round (!s) M E := by
  unfold F64.round
  dsimp only
  split_ifs <;> rfl

theorem round_ne_nan (s : Bool) (M : Nat) (E : Int) : F64.round s M E ≠ F64.nan := by
  unfold F64.round
  dsimp only
  split_ifs <;> simp

theorem feq_self (x : F64) (h : x ≠ F64.nan) : F64.feq x x = true := by
  cases x with
  | nan => exact absurd rfl h
  | inf s => simp [F64.feq]
  | fin s m e => simp [F64.feq]

theorem signed_not (s : Bool) (n : Nat) : F64.signed (!s) n = -F64.signed s n := by
  cases s <;> simp [F64.signed]

/-- Subtraction of `float64` values is anti-symmetric up to NaN: either both
`p - q` and `q - p` are NaN, or `p - q == -(q - p)`. -/
theorem fsub_anti (p q : F64) :
    (p - q = F64.nan ∧ q - p = F64.nan) ∨ F64.feq (p - q) (-(q - p)) = true := by
  show (F64.fadd p (F64.fneg q) = F64.nan ∧ F64.fadd q (F64.fneg p) = F64.nan) ∨
    F64.feq (F64.fadd p (F64.fneg q)) (F64.fneg (F64.fadd q (F64.fneg p))) = true
  cases p with
  | nan =>
    left
    cases q <;> simp [F64.fadd, F64.fneg]
  | inf s1 =>
    cases q with
    | nan => left; simp [F64.fadd, F64.fneg]
    | inf s2 => cases s1 <;> cases s2 <;> simp [F64.fadd, F64.fneg, F64.feq]
    | fin s2 m2 e2 => right; simp [F64.fadd, F64.fneg, F64.feq]
  | fin s1 m1 e1 =>
    cases q with
    | nan => left; simp [F64.fadd, F64.fneg]
    | inf s2 => right; simp [F64.fadd, F64.fneg, F64.feq]
    | fin s2 m2 e2 =>
      right
      have hpq : F64.fadd (F64.fin s1 m1 e1) (F64.fneg (F64.fin s2 m2 e2))
          = if F64.signed s1 (m1 * 2 ^ (e1 - min e1 e2).toNat)
                + F64.signed (!s2) (m2 * 2 ^ (e2 - min e1 e2).toNat) = 0
              then F64.fin (s1 && !s2) 0 (-1074)
            else F64.round
              (decide (F64.signed s1 (m1 * 2 ^ (e1 - min e1 e2).toNat)
                + F64.signed (!s2) (m2 * 2 ^ (e2 - min e1 e2).toNat) < 0))
              (F64.signed s1 (m1 * 2 ^ (e1 - min e1 e2).toNat)
                + F64.signed (!s2) (m2 * 2 ^ (e2 - min e1 e2).toNat)).natAbs (min e1 e2) := rfl
      have hqp : F64.fadd (F64.fin s2 m2 e2) (F64.fneg (F64.fin s1 m1 e1))
          = if F64.signed s2 (m2 * 2 ^ (e2 - min e2 e1).toNat)
                + F64.signed (!s1) (m1 * 2 ^ (e1 - min e2 e1).toNat) = 0
              then F64.fin (s2 && !s1) 0 (-1074)
            else F64.round
              (decide (F64.signed s2 (m2 * 2 ^ (e2 - min e2 e1).toNat)
                + F64.signed (!s1) (m1 * 2 ^ (e1 - min e2 e1).toNat) < 0))
              (F64.signed s2 (m2 * 2 ^ (e2 - min e2 e1).toNat)
                + F64.signed (!s1) (m1 * 2 ^ (e1 - min e2 e1).toNat)).natAbs (min e2 e1) := rfl
      have ht : F64.signed s2 (m2 * 2 ^ (e2 - min e1 e2).toNat)
            + F64.signed (!s1) (m1 * 2 ^ (e1 - min e1 e2).toNat)
          = -(F64.signed s1 (m1 * 2 ^ (e1 - min e1 e2).toNat)
            + F64.signed (!s2) (m2 * 2 ^ (e2 - min e1 e2).toNat)) := by
        rw [signed_not, signed_not]
        ring
      rw [min_comm e2 e1, ht] at hqp
      rw [hpq, hqp]
      generalize F64.signed s1 (m1 * 2 ^ (e1 - min e1 e2).toNat)
        + F64.signed (!s2) (m2 * 2 ^ (e2 - min e1 e2).toNat) = t
      by_cases h0 : t = 0
      · have h1 : -t = 0 := by omega
        rw [if_pos h0, if_pos h1]
        simp [F64.fneg, F64.feq]
      · have h1 : ¬ (-t = 0) := by omega
        rw [if_neg h0, if_neg h1, fneg_round, Int.natAbs_neg]
        have hs : (!decide (-t < 0)) = decide (t < 0) := by
          by_cases hlt : t < 0
          · have : ¬ (-t < 0) := by omega
            simp [hlt, this]
          · have : -t < 0 := by omega
            simp [hlt, this]
        rw [hs]
        exact feq_self _ (round_ne_nan _ _ _)

theorem feq_zero_neg_zero : F64.feq (0 : F64) (-(0 : F64)) = true := by
  decide

/-- Over exact (commutative-ring) arithmetic, for vectors `a`, `b` both of
length 2 or both of length 3, every component of `Cross a b` is the negation
of the corresponding component of `Cross b a`. -/
theorem cross_anticomm_exact (α : Type) [CommRing α] (a b : RowVector α)
    (h : a.length = b.length) (h23 : a.length = 2 ∨ a.length = 3) :
    ∃ u v, RowVector.Cross a b = some (u, none) ∧ RowVector.Cross b a = some (v, none) ∧
      u.length = 3 ∧ v.length = 3 ∧ u = v.map (fun x => -x) := by
  rcases h23 with h2 | h3
  · obtain ⟨a0, a1, rfl⟩ := List.length_eq_two.mp h2
    obtain ⟨b0, b1, rfl⟩ := List.length_eq_two.mp (h ▸ h2)
    refine ⟨_, _, cross_two a0 a1 b0 b1, cross_two b0 b1 a0 a1, rfl, rfl, ?_⟩
    simp only [List.map_cons, List.map_nil, neg_zero, neg_sub]
    congr 3
    ring
  · obtain ⟨a0, a1, a2, rfl⟩ := List.length_eq_three.mp h3
    obtain ⟨b0, b1, b2, rfl⟩ := List.length_eq_three.mp (h ▸ h3)
    refine ⟨_, _, cross_three a0 a1 a2 b0 b1 b2, cross_three b0 b1 b2 a0 a1 a2, rfl, rfl, ?_⟩
    simp only [List.map_cons, List.map_nil, neg_sub]
    have e0 : a1 * b2 - a2 * b1 = b2 * a1 - b1 * a2 := by ring
    have e1 : a2 * b0 - a0 * b2 = b0 * a2 - b2 * a0 := by ring
    have e2 : a0 * b1 - a1 * b0 = b1 * a0 - b0 * a1 := by ring
    rw [e0, e1, e2]

end Lemmas

section Claims

/-- C1: for well-formed (rectangular, at least one row and one column)
matrices `A` and `B` with `cols A = rows B`, `MatMul A B` returns a matrix and
a nil error, and every cell `(i, j)` of it is the sum over `k = 0..cols A - 1`,
accumulated in index order, of `A[i][k] * B[k][j]`, which is what `Dot` returns
on row `i` of `A` and the gathered column `j` of `B`; on `[[1,2],[3,4]]` and
`[[5,6],[7,8]]` the result is `[[19,22],[43,50]]`. -/
theorem C1_matMul_cells (α : Type) [Zero α] [Add α] [Mul α] :
    (∀ A B : Matrix α, WellFormed A → WellFormed B → Matrix.cols A = Matrix.rows B →
      ∃ m3, Matrix.MatMul A B = some (m3, none) ∧
        ∀ i j, i < Matrix.rows A → j < Matrix.cols B →
          ∃ row col s, A[i]? = some row ∧ col.length = Matrix.rows B ∧
            (∀ k, k < Matrix.rows B → col[k]? = getCell B k j) ∧
            RowVector.Dot row col = some (s, none) ∧
            cellSum A B i j (Matrix.cols A) = some s ∧
            getCell m3 i j = some s) ∧
    Matrix.MatMul ([[1, 2], [3, 4]] : Matrix Int) [[5, 6], [7, 8]]
      = some ([[19, 22], [43, 50]], none) := by
  refine ⟨?_, by decide⟩
  intro A B hA hB hcr
  obtain ⟨m3, hm3, _, hcells⟩ := matMul_spec A B hA hB hcr
  refine ⟨m3, hm3, ?_⟩
  intro i j hi hj
  obtain ⟨row, col, hrow, hlen, hcl, hck, hget⟩ := hcells i j hi hj
  refine ⟨row, col, dotFold row col, hrow, hcl, hck, dot_eq row col (by omega), ?_, hget⟩
  have := cellSum_eq A B i j (Matrix.cols A) row col hrow hlen (by omega)
    (fun k hk => hck k (by omega)) (Matrix.cols A) (Nat.le_refl _)
  rw [this]
  have e1 : row.take (Matrix.cols A) = row := List.take_of_length_le (by omega)
  have e2 : col.take (Matrix.cols A) = col := List.take_of_length_le (by omega)
  rw [e1, e2]

/-- C1, at a 2 x 3 and a 3 x 2 matrix of integers. -/
theorem C1_matMul_cells_witness :
    WellFormed ([[1, 2, 3], [4, 5, 6]] : Matrix Int) ∧
    WellFormed ([[1, 0], [0, 1], [2, 2]] : Matrix Int) ∧
    Matrix.cols ([[1, 2, 3], [4, 5, 6]] : Matrix Int)
      = Matrix.rows ([[1, 0], [0, 1], [2, 2]] : Matrix Int) ∧
    ∃ m3, Matrix.MatMul ([[1, 2, 3], [4, 5, 6]] : Matrix Int) [[1, 0], [0, 1], [2, 2]]
        = some (m3, none) ∧
      ∀ i j, i < Matrix.rows ([[1, 2, 3], [4, 5, 6]] : Matrix Int) →
        j < Matrix.cols ([[1, 0], [0, 1], [2, 2]] : Matrix Int) →
        ∃ row col s, ([[1, 2, 3], [4, 5, 6]] : Matrix Int)[i]? = some row ∧
          col.length = Matrix.rows ([[1, 0], [0, 1], [2, 2]] : Matrix Int) ∧
          (∀ k, k < Matrix.rows ([[1, 0], [0, 1], [2, 2]] : Matrix Int) →
            col[k]? = getCell ([[1, 0], [0, 1], [2, 2]] : Matrix Int) k j) ∧
          RowVector.Dot row col = some (s, none) ∧
          cellSum ([[1, 2, 3], [4, 5, 6]] : Matrix Int) [[1, 0], [0, 1], [2, 2]] i j
            (Matrix.cols ([[1, 2, 3], [4, 5, 6]] : Matrix Int)) = some s ∧
          getCell m3 i j = some s :=
  ⟨by decide, by decide, by decide,
    (C1_matMul_cells Int).1 [[1, 2, 3], [4, 5, 6]] [[1, 0], [0, 1], [2, 2]]
      (by decide) (by decide) (by decide)⟩

/-- C2: for well-formed matrices `A` and `B`, `MatMul A B` returns (it does
not panic), its error is non-nil exactly when the column count of `A` differs
from the row count of `B`, and when the error is nil `GetShape` of the result
is (rows of `A`, columns of `B`). -/
theorem C2_matMul_error_iff (α : Type) [Zero α] [Add α] [Mul α] (A B : Matrix α)
    (hA : WellFormed A) (hB : WellFormed B) :
    ∃ sA sB m3 err, Matrix.GetShape A = some sA ∧ Matrix.GetShape B = some sB ∧
      Matrix.MatMul A B = some (m3, err) ∧
      (err ≠ none ↔ sA.2 ≠ sB.1) ∧
      (err = none → Matrix.GetShape m3 = some (sA.1, sB.2)) := by
  obtain ⟨_, hrA, _⟩ := wellFormed_shape A hA
  obtain ⟨_, _, hcB⟩ := wellFormed_shape B hB
  by_cases hcr : Matrix.cols A = Matrix.rows B
  · obtain ⟨m3, hm3, hsh, _⟩ := matMul_spec A B hA hB hcr
    refine ⟨_, _, m3, none, getShape_wellFormed A hA, getShape_wellFormed B hB, hm3, ?_, ?_⟩
    · simp [hcr]
    · intro _
      exact getShape_of_shape m3 _ _ hsh hrA hcB
  · refine ⟨_, _, [], _, getShape_wellFormed A hA, getShape_wellFormed B hB,
      matMul_mismatch A B hA hB hcr, ?_, ?_⟩
    · simp only [ne_eq, reduceCtorEq, not_false_eq_true, true_iff]
      exact_mod_cast hcr
    · intro h
      exact absurd h (by simp)

/-- C2, at a 2 x 3 matrix times a 2 x 2 matrix (a mismatch). -/
theorem C2_matMul_error_iff_witness :
    WellFormed ([[1, 2, 3], [4, 5, 6]] : Matrix Int) ∧
    WellFormed ([[1, 0], [0, 1]] : Matrix Int) ∧
    ∃ sA sB m3 err, Matrix.GetShape ([[1, 2, 3], [4, 5, 6]] : Matrix Int) = some sA ∧
      Matrix.GetShape ([[1, 0], [0, 1]] : Matrix Int) = some sB ∧
      Matrix.MatMul ([[1, 2, 3], [4, 5, 6]] : Matrix Int) [[1, 0], [0, 1]] = some (m3, err) ∧
      (err ≠ none ↔ sA.2 ≠ sB.1) ∧
      (err = none → Matrix.GetShape m3 = some (sA.1, sB.2)) :=
  ⟨by decide, by decide,
    C2_matMul_error_iff Int [[1, 2, 3], [4, 5, 6]] [[1, 0], [0, 1]] (by decide) (by decide)⟩

/-- C3 as stated fails: on the ragged matrix `[[1],[2,3]]` both transposes
return, and the round trip yields `[[1],[2]]`, not the argument. -/
theorem C3_transpose_involutive_counterexample :
    (Matrix.Transpose ([[1], [2, 3]] : Matrix Int)).bind Matrix.Transpose = some [[1], [2]] ∧
    (Matrix.Transpose ([[1], [2, 3]] : Matrix Int)).bind Matrix.Transpose
      ≠ some [[1], [2, 3]] := by
  decide

/-- C3 (amended): for every well-formed matrix `A` (at least one row, at least
one column, all rows of one length), `Transpose A` returns a matrix `T` and
`Transpose T` returns `A` itself: same number of rows, same row lengths, same
entries. -/
theorem C3_transpose_involutive (α : Type) [Zero α] (A : Matrix α) (hA : WellFormed A) :
    ∃ T, Matrix.Transpose A = some T ∧ Matrix.Transpose T = some A := by
  obtain ⟨hsA, hrA, hcA⟩ := wellFormed_shape A hA
  obtain ⟨T, hT, hshT, hcT⟩ := transpose_spec A hA
  obtain ⟨hwT, erT, ecT⟩ := shape_wellFormed T _ _ hshT hcA hrA
  obtain ⟨U, hU, hshU, hcU⟩ := transpose_spec T hwT
  refine ⟨T, hT, ?_⟩
  rw [hU]
  congr 1
  rw [erT, ecT] at hshU hcU
  apply shape_ext U A _ _ hshU hsA
  intro i j hi hj
  rw [hcU i j hi hj, hcT j i hj hi]

/-- C3 (amended), at a 2 x 3 matrix of integers. -/
theorem C3_transpose_involutive_witness :
    WellFormed ([[1, 2, 3], [4, 5, 6]] : Matrix Int) ∧
    ∃ T, Matrix.Transpose ([[1, 2, 3], [4, 5, 6]] : Matrix Int) = some T ∧
      Matrix.Transpose T = some [[1, 2, 3], [4, 5, 6]] :=
  ⟨by decide, C3_transpose_involutive Int [[1, 2, 3], [4, 5, 6]] (by decide)⟩

/-- C4: for every well-formed (rectangular, `r ≥ 1` rows, `c ≥ 1` columns)
matrix `A`, `Transpose A` returns a matrix whose `GetShape` is `(c, r)` and
whose cell `(i, j)` is `A[j][i]` for all `i < c`, `j < r`; on `[[1,2],[3,4]]`
the result is `[[1,3],[2,4]]`. -/
theorem C4_transpose_cells (α : Type) [Zero α] :
    (∀ A : Matrix α, WellFormed A →
      ∃ T, Matrix.Transpose A = some T ∧
        Matrix.GetShape T = some ((Matrix.cols A : Int), (Matrix.rows A : Int)) ∧
        ∀ i j, i < Matrix.cols A → j < Matrix.rows A →
          ∃ x, getCell A j i = some x ∧ getCell T i j = some x) ∧
    Matrix.Transpose ([[1, 2], [3, 4]] : Matrix Int) = some [[1, 3], [2, 4]] := by
  refine ⟨?_, by decide⟩
  intro A hA
  obtain ⟨hsA, hrA, hcA⟩ := wellFormed_shape A hA
  obtain ⟨T, hT, hshT, hcT⟩ := transpose_spec A hA
  refine ⟨T, hT, getShape_of_shape T _ _ hshT hcA hrA, ?_⟩
  intro i j hi hj
  obtain ⟨x, hx⟩ := shape_getCell A _ _ j i hsA hj hi
  exact ⟨x, hx, by rw [hcT i j hi hj, hx]⟩

/-- C4, at a 2 x 3 matrix of integers. -/
theorem C4_transpose_cells_witness :
    WellFormed ([[1, 2, 3], [4, 5, 6]] : Matrix Int) ∧
    ∃ T, Matrix.Transpose ([[1, 2, 3], [4, 5, 6]] : Matrix Int) = some T ∧
      Matrix.GetShape T
        = some ((Matrix.cols ([[1, 2, 3], [4, 5, 6]] : Matrix Int) : Int),
            (Matrix.rows ([[1, 2, 3], [4, 5, 6]] : Matrix Int) : Int)) ∧
      ∀ i j, i < Matrix.cols ([[1, 2, 3], [4, 5, 6]] : Matrix Int) →
        j < Matrix.rows ([[1, 2, 3], [4, 5, 6]] : Matrix Int) →
        ∃ x, getCell ([[1, 2, 3], [4, 5, 6]] : Matrix Int) j i = some x ∧
          getCell T i j = some x :=
  ⟨by decide, (C4_transpose_cells Int).1 [[1, 2, 3], [4, 5, 6]] (by decide)⟩

/-- C5: `Cross` on two vectors of length 3 returns, with a nil error, the
vector `[a1*b2 - a2*b1, a2*b0 - a0*b2, a0*b1 - a1*b0]`; on two vectors of
length 2 it returns, with a nil error, `[0, 0, a0*b1 - a1*b0]`; and
`Cross [1,0,0] [0,1,0] = [0,0,1]`. -/
theorem C5_cross_formula (α : Type) [Zero α] [Sub α] [Mul α] :
    (∀ a0 a1 a2 b0 b1 b2 : α,
      RowVector.Cross [a0, a1, a2] [b0, b1, b2]
        = some ([a1 * b2 - a2 * b1, a2 * b0 - a0 * b2, a0 * b1 - a1 * b0], none)) ∧
    (∀ a0 a1 b0 b1 : α,
      RowVector.Cross [a0, a1] [b0, b1] = some ([0, 0, a0 * b1 - a1 * b0], none)) ∧
    RowVector.Cross ([1, 0, 0] : RowVector Int) [0, 1, 0] = some ([0, 0, 1], none) :=
  ⟨cross_three, cross_two, by decide⟩

/-- C6: `Cross a b` never panics; it returns the shape-mismatch error exactly
when `len a ≠ len b`, the unsupported-dimension error exactly when the
lengths are equal and are neither 2 nor 3, and a nil error exactly when the
lengths are equal and are 2 or 3; whenever the error is non-nil the returned
vector is the nil slice. -/
theorem C6_cross_errors (α : Type) [Zero α] [Sub α] [Mul α] (a b : RowVector α) :
    ((∃ v, RowVector.Cross a b
        = some (v, some "the shape of the two vectors are not equal"))
      ↔ a.length ≠ b.length) ∧
    ((∃ v, RowVector.Cross a b
        = some (v, some "we can only calc the 2 or 3 dimensions row vector"))
      ↔ a.length = b.length ∧ a.length ≠ 2 ∧ a.length ≠ 3) ∧
    ((∃ v, RowVector.Cross a b = some (v, none))
      ↔ a.length = b.length ∧ (a.length = 2 ∨ a.length = 3)) ∧
    (∀ v e, RowVector.Cross a b = some (v, some e) → v = []) := by
  have hmsg : "the shape of the two vectors are not equal"
      ≠ "we can only calc the 2 or 3 dimensions row vector" := by decide
  by_cases h : a.length = b.length
  · by_cases h23 : a.length = 2 ∨ a.length = 3
    · obtain ⟨v, hv⟩ := cross_ok a b h h23
      refine ⟨?_, ?_, ?_, ?_⟩
      · simp [hv, h]
      · simp only [hv, Option.some.injEq, Prod.mk.injEq, reduceCtorEq, and_false, exists_false,
          false_iff]
        omega
      · exact ⟨fun _ => ⟨h, h23⟩, fun _ => ⟨v, hv⟩⟩
      · intro w e hw
        rw [hv] at hw
        simp at hw
    · have h2 : a.length ≠ 2 := fun e => h23 (Or.inl e)
      have h3 : a.length ≠ 3 := fun e => h23 (Or.inr e)
      have hv := cross_unsupported a b h h2 h3
      refine ⟨?_, ?_, ?_, ?_⟩
      · simp only [hv, Option.some.injEq, Prod.mk.injEq, h, ne_eq, not_true_eq_false, iff_false,
          not_exists, not_and]
        intro _ _ e
        exact hmsg e.symm
      · exact ⟨fun _ => ⟨h, h2, h3⟩, fun _ => ⟨[], hv⟩⟩
      · constructor
        · intro ⟨w, hw⟩
          rw [hv] at hw
          simp at hw
        · intro ⟨_, hx⟩
          exact absurd hx h23
      · intro w e hw
        rw [hv] at hw
        simp only [Option.some.injEq, Prod.mk.injEq] at hw
        exact hw.1.symm
  · have hv := cross_mismatch a b h
    refine ⟨?_, ?_, ?_, ?_⟩
    · simp [hv, h]
    · simp only [hv, Option.some.injEq, Prod.mk.injEq, h, false_and, iff_false, not_exists,
        not_and]
      intro _ _ e
      exact hmsg e
    · simp [hv, h]
    · intro w e hw
      rw [hv] at hw
      simp only [Option.some.injEq, Prod.mk.injEq] at hw
      exact hw.1.symm

set_option maxRecDepth 20000 in
/-- C7 as stated fails: with `a = [MaxFloat64, MaxFloat64]` and `b = [2, 2]`
both products overflow to `+Inf`, so the third component of `Cross a b` and
of `Cross b a` is NaN, and NaN does not equal the negation of NaN. -/
theorem C7_cross_anticomm_counterexample :
    RowVector.Cross [F64.maxFloat, F64.maxFloat] [F64.two, F64.two]
      = some ([0, 0, F64.nan], none) ∧
    RowVector.Cross [F64.two, F64.two] [F64.maxFloat, F64.maxFloat]
      = some ([0, 0, F64.nan], none) ∧
    F64.feq F64.nan (-F64.nan) = false := by
  decide

/-- C7 (amended): for `float64` vectors `a`, `b` both of length 2 or both of
length 3, `Cross a b` and `Cross b a` both return a length-3 vector with a
nil error, and at every index either both components are NaN or the
component of `Cross a b` equals (`==`) the negation of the component of
`Cross b a`. -/
theorem C7_cross_anticomm (a b : RowVector F64)
    (h : a.length = b.length) (h23 : a.length = 2 ∨ a.length = 3) :
    ∃ u v, RowVector.Cross a b = some (u, none) ∧ RowVector.Cross b a = some (v, none) ∧
      u.length = 3 ∧ v.length = 3 ∧
      ∀ i, i < 3 → ∃ x y, u[i]? = some x ∧ v[i]? = some y ∧
        ((x = F64.nan ∧ y = F64.nan) ∨ F64.feq x (-y) = true) := by
  rcases h23 with h2 | h3
  · obtain ⟨a0, a1, rfl⟩ := List.length_eq_two.mp h2
    obtain ⟨b0, b1, rfl⟩ := List.length_eq_two.mp (h ▸ h2)
    refine ⟨_, _, cross_two a0 a1 b0 b1, cross_two b0 b1 a0 a1, rfl, rfl, ?_⟩
    intro i hi
    rw [fmul_comm b0 a1, fmul_comm b1 a0]
    interval_cases i
    · exact ⟨0, 0, rfl, rfl, Or.inr feq_zero_neg_zero⟩
    · exact ⟨0, 0, rfl, rfl, Or.inr feq_zero_neg_zero⟩
    · exact ⟨_, _, rfl, rfl, fsub_anti (a0 * b1) (a1 * b0)⟩
  · obtain ⟨a0, a1, a2, rfl⟩ := List.length_eq_three.mp h3
    obtain ⟨b0, b1, b2, rfl⟩ := List.length_eq_three.mp (h ▸ h3)
    refine ⟨_, _, cross_three a0 a1 a2 b0 b1 b2, cross_three b0 b1 b2 a0 a1 a2, rfl, rfl, ?_⟩
    intro i hi
    rw [fmul_comm b1 a2, fmul_comm b2 a1, fmul_comm b2 a0, fmul_comm b0 a2, fmul_comm b0 a1,
      fmul_comm b1 a0]
    interval_cases i
    · exact ⟨_, _, rfl, rfl, fsub_anti (a1 * b2) (a2 * b1)⟩
    · exact ⟨_, _, rfl, rfl, fsub_anti (a2 * b0) (a0 * b2)⟩
    · exact ⟨_, _, rfl, rfl, fsub_anti (a0 * b1) (a1 * b0)⟩

/-- C7 (amended), at the `float64` vectors `[2, 0, MaxFloat64]` and
`[0, 2, 2]`. -/
theorem C7_cross_anticomm_witness :
    ([F64.two, 0, F64.maxFloat] : RowVector F64).length
      = ([0, F64.two, F64.two] : RowVector F64).length ∧
    (([F64.two, 0, F64.maxFloat] : RowVector F64).length = 2 ∨
      ([F64.two, 0, F64.maxFloat] : RowVector F64).length = 3) ∧
    ∃ u v, RowVector.Cross ([F64.two, 0, F64.maxFloat] : RowVector F64) [0, F64.two, F64.two]
        = some (u, none) ∧
      RowVector.Cross ([0, F64.two, F64.two] : RowVector F64) [F64.two, 0, F64.maxFloat]
        = some (v, none) ∧
      u.length = 3 ∧ v.length = 3 ∧
      ∀ i, i < 3 → ∃ x y, u[i]? = some x ∧ v[i]? = some y ∧
        ((x = F64.nan ∧ y = F64.nan) ∨ F64.feq x (-y) = true) :=
  ⟨by decide, by decide,
    C7_cross_anticomm [F64.two, 0, F64.maxFloat] [0, F64.two, F64.two] (by decide) (by decide)⟩

/-- C8: for vectors `a`, `b` of equal length `n`, `Dot a b` returns, with a
nil error, the left fold from `0`, in index order `0..n-1` with a single
accumulator, of the products `a[i] * b[i]` (given both as the fold over the
paired elements and as the index-by-index sum). -/
theorem C8_dot_left_fold (α : Type) [Zero α] [Add α] [Mul α] (a b : RowVector α)
    (h : a.length = b.length) :
    RowVector.Dot a b = some (dotFold a b, none) ∧
      dotSum a b a.length = some (dotFold a b) := by
  refine ⟨dot_eq a b h, ?_⟩
  rw [dotSum_eq a b a.length (Nat.le_refl _) (by omega)]
  have e1 : a.take a.length = a := List.take_of_length_le (Nat.le_refl _)
  have e2 : b.take a.length = b := List.take_of_length_le (by omega)
  rw [e1, e2]

/-- C8, at two integer vectors of length 3. -/
theorem C8_dot_left_fold_witness :
    ([1, 2, 3] : RowVector Int).length = ([4, 5, 6] : RowVector Int).length ∧
    RowVector.Dot ([1, 2, 3] : RowVector Int) [4, 5, 6]
      = some (dotFold ([1, 2, 3] : RowVector Int) [4, 5, 6], none) ∧
    dotSum ([1, 2, 3] : RowVector Int) [4, 5, 6] ([1, 2, 3] : RowVector Int).length
      = some (dotFold ([1, 2, 3] : RowVector Int) [4, 5, 6]) :=
  ⟨by decide, C8_dot_left_fold Int [1, 2, 3] [4, 5, 6] (by decide)⟩

/-- C9: when multiplication of scalars is commutative, for vectors `a`, `b`
of equal length `Dot a b` and `Dot b a` return the same value, each with a
nil error. -/
theorem C9_dot_comm (α : Type) [Zero α] [Add α] [CommMagma α] (a b : RowVector α)
    (h : a.length = b.length) :
    ∃ d, RowVector.Dot a b = some (d, none) ∧ RowVector.Dot b a = some (d, none) := by
  refine ⟨dotFold a b, dot_eq a b h, ?_⟩
  rw [dot_eq b a h.symm]
  have := foldl_zip_swap (fun x y : α => mul_comm x y) a b 0
  simp only [dotFold, this]

/-- C9, at two integer vectors of length 3. -/
theorem C9_dot_comm_witness :
    ([1, 2, 3] : RowVector Int).length = ([4, 5, 6] : RowVector Int).length ∧
    ∃ d, RowVector.Dot ([1, 2, 3] : RowVector Int) [4, 5, 6] = some (d, none) ∧
      RowVector.Dot ([4, 5, 6] : RowVector Int) [1, 2, 3] = some (d, none) :=
  ⟨by decide, C9_dot_comm Int [1, 2, 3] [4, 5, 6] (by decide)⟩

/-- C10: for every vector `v`, the empty one included, `Dot v v` returns a
value `d` with a nil error and `Length v` is the square root of `d`; when
`sqrt 0 = 0` and `0 + 0 * 0 = 0`, as for `float64`, `Length` of a vector of
zeros is `0`. -/
theorem C10_length_sqrt_dot (α : Type) [Zero α] [Add α] [Mul α] (sqrt : α → α) :
    (∀ v : RowVector α, ∃ d, RowVector.Dot v v = some (d, none) ∧
      RowVector.Length sqrt v = sqrt d) ∧
    (sqrt 0 = 0 → (0 : α) + 0 * 0 = 0 →
      ∀ n : Nat, RowVector.Length sqrt (List.replicate n (0 : α)) = 0) := by
  constructor
  · intro v
    refine ⟨dotFold v v, dot_eq v v rfl, ?_⟩
    simp only [RowVector.Length, dotFold, foldl_sq_eq_zip v 0]
  · intro hs h0 n
    simp only [RowVector.Length, foldl_sq_replicate_zero h0 n, hs]

/-- C10, over the natural numbers with the integer square root: the vector
`[3, 4]` has length `5` and a vector of three zeros has length `0`. -/
theorem C10_length_sqrt_dot_witness :
    Nat.sqrt 0 = 0 ∧ (0 : Nat) + 0 * 0 = 0 ∧
    (∃ d, RowVector.Dot ([3, 4] : RowVector Nat) [3, 4] = some (d, none) ∧
      RowVector.Length Nat.sqrt ([3, 4] : RowVector Nat) = Nat.sqrt d) ∧
    RowVector.Length Nat.sqrt (List.replicate 3 (0 : Nat)) = 0 :=
  ⟨by decide, by decide, (C10_length_sqrt_dot Nat Nat.sqrt).1 [3, 4],
    (C10_length_sqrt_dot Nat Nat.sqrt).2 (by decide) (by decide) 3⟩

/-- C11: for vectors `a`, `b` of equal length (`n > 0` or `n = 0`), `Add` and
`Minus` return, with a nil error, a vector `r` with `GetShape r = GetShape a`
and `r[i] = a[i] + b[i]`, respectively `r[i] = a[i] - b[i]`, at every index
`i < n`.  The operands are values that the operations only read. -/
theorem C11_vec_add_minus (α : Type) [Zero α] [Add α] [Sub α] (a b : RowVector α)
    (h : a.length = b.length) :
    (∃ r, RowVector.Add a b = some (r, none) ∧
      RowVector.GetShape r = RowVector.GetShape a ∧
      ∀ i, i < a.length → ∃ x y, a[i]? = some x ∧ b[i]? = some y ∧ r[i]? = some (x + y)) ∧
    (∃ r, RowVector.Minus a b = some (r, none) ∧
      RowVector.GetShape r = RowVector.GetShape a ∧
      ∀ i, i < a.length → ∃ x y, a[i]? = some x ∧ b[i]? = some y ∧ r[i]? = some (x - y)) := by
  constructor
  · refine ⟨_, vecAdd_eq a b h, by simp [RowVector.GetShape, h], ?_⟩
    intro i hi
    have hb : i < b.length := by omega
    exact ⟨a[i], b[i], List.getElem?_eq_getElem hi, List.getElem?_eq_getElem hb,
      by simp [List.getElem?_zipWith, hi, hb]⟩
  · refine ⟨_, vecMinus_eq a b h, by simp [RowVector.GetShape, h], ?_⟩
    intro i hi
    have hb : i < b.length := by omega
    exact ⟨a[i], b[i], List.getElem?_eq_getElem hi, List.getElem?_eq_getElem hb,
      by simp [List.getElem?_zipWith, hi, hb]⟩

/-- C11, at two integer vectors of length 3. -/
theorem C11_vec_add_minus_witness :
    ([1, 2, 3] : RowVector Int).length = ([4, 5, 6] : RowVector Int).length ∧
    (∃ r, RowVector.Add ([1, 2, 3] : RowVector Int) [4, 5, 6] = some (r, none) ∧
      RowVector.GetShape r = RowVector.GetShape ([1, 2, 3] : RowVector Int) ∧
      ∀ i, i < ([1, 2, 3] : RowVector Int).length →
        ∃ x y, ([1, 2, 3] : RowVector Int)[i]? = some x ∧
          ([4, 5, 6] : RowVector Int)[i]? = some y ∧ r[i]? = some (x + y)) ∧
    (∃ r, RowVector.Minus ([1, 2, 3] : RowVector Int) [4, 5, 6] = some (r, none) ∧
      RowVector.GetShape r = RowVector.GetShape ([1, 2, 3] : RowVector Int) ∧
      ∀ i, i < ([1, 2, 3] : RowVector Int).length →
        ∃ x y, ([1, 2, 3] : RowVector Int)[i]? = some x ∧
          ([4, 5, 6] : RowVector Int)[i]? = some y ∧ r[i]? = some (x - y)) :=
  ⟨by decide, C11_vec_add_minus Int [1, 2, 3] [4, 5, 6] (by decide)⟩

/-- C12: each of the vector operations `Add`, `Minus` and `Dot` never panics
and returns a non-nil error exactly when `len a ≠ len b`; with a non-nil
error `Add` and `Minus` return the nil vector and `Dot` returns `0`. -/
theorem C12_vec_errors (α : Type) [Zero α] [Add α] [Sub α] [Mul α] (a b : RowVector α) :
    (∃ r e, RowVector.Add a b = some (r, e) ∧ (e ≠ none ↔ a.length ≠ b.length) ∧
      (e ≠ none → r = [])) ∧
    (∃ r e, RowVector.Minus a b = some (r, e) ∧ (e ≠ none ↔ a.length ≠ b.length) ∧
      (e ≠ none → r = [])) ∧
    (∃ d e, RowVector.Dot a b = some (d, e) ∧ (e ≠ none ↔ a.length ≠ b.length) ∧
      (e ≠ none → d = 0)) := by
  by_cases h : a.length = b.length
  · exact ⟨⟨_, _, vecAdd_eq a b h, by simp [h], fun hx => absurd rfl hx⟩,
      ⟨_, _, vecMinus_eq a b h, by simp [h], fun hx => absurd rfl hx⟩,
      ⟨_, _, dot_eq a b h, by simp [h], fun hx => absurd rfl hx⟩⟩
  · exact ⟨⟨_, _, vecAdd_ne a b h, by simp [h], fun _ => rfl⟩,
      ⟨_, _, vecMinus_ne a b h, by simp [h], fun _ => rfl⟩,
      ⟨_, _, dot_ne a b h, by simp [h], fun _ => rfl⟩⟩

/-- C13: for every integer `n`, `NewRowVector n` returns a non-nil error
exactly when `n ≤ 0`; for `n > 0` the error is nil and the vector has length
`n`, `GetShape` `(1, n)`, and every element `0`. -/
theorem C13_newRowVector (α : Type) [Zero α] (n : Int) :
    ((NewRowVector n : RowVector α × Option String).2 ≠ none ↔ n ≤ 0) ∧
    (0 < n →
      (NewRowVector n : RowVector α × Option String).2 = none ∧
      (((NewRowVector n : RowVector α × Option String).1.length : Int) = n) ∧
      RowVector.GetShape (NewRowVector n : RowVector α × Option String).1 = (1, n) ∧
      ∀ x ∈ (NewRowVector n : RowVector α × Option String).1, x = 0) := by
  by_cases h : n ≤ 0
  · refine ⟨by simp [NewRowVector, h], fun hn => absurd hn (by omega)⟩
  · refine ⟨by simp [NewRowVector, h], fun hn => ?_⟩
    have e : ((n.toNat : Nat) : Int) = n := Int.toNat_of_nonneg (by omega)
    simp only [NewRowVector, if_neg h, makeSlice, RowVector.GetShape, List.length_replicate, e,
      true_and]
    intro x hx
    exact List.eq_of_mem_replicate hx

/-- C13, at `n = 3` over the integers. -/
theorem C13_newRowVector_witness :
    (0 : Int) < 3 ∧
    (NewRowVector 3 : RowVector Int × Option String).2 = none ∧
    (((NewRowVector 3 : RowVector Int × Option String).1.length : Int) = 3) ∧
    RowVector.GetShape (NewRowVector 3 : RowVector Int × Option String).1 = (1, 3) ∧
    ∀ x ∈ (NewRowVector 3 : RowVector Int × Option String).1, x = 0 :=
  ⟨by decide, (C13_newRowVector Int 3).2 (by decide)⟩

/-- C14: for all integers `r`, `c`, `NewMatrix r c` never panics and returns
a non-nil error exactly when `r ≤ 0` or `c ≤ 0`; otherwise the matrix has
exactly `r` rows, each of length exactly `c` with every entry `0`, and its
`GetShape` is `(r, c)`. -/
theorem C14_newMatrix (α : Type) [Zero α] (r c : Int) :
    ∃ m e, (NewMatrix r c : Option (Matrix α × Option String)) = some (m, e) ∧
      (e ≠ none ↔ (r ≤ 0 ∨ c ≤ 0)) ∧
      (0 < r → 0 < c →
        ((m.length : Int) = r) ∧
        (∀ row ∈ m, ((row.length : Int) = c) ∧ ∀ x ∈ row, x = 0) ∧
        Matrix.GetShape m = some (r, c)) := by
  by_cases h : r ≤ 0 ∨ c ≤ 0
  · have e : (NewMatrix r c : Option (Matrix α × Option String))
        = some ([], some "rows and columns of the matrix must >0") := by
      unfold NewMatrix
      rw [if_pos h]
    refine ⟨[], some "rows and columns of the matrix must >0", e, ?_, ?_⟩
    · exact ⟨fun _ => h, fun _ => by simp⟩
    · intro hr hc
      omega
  · have hr : 0 < r := by omega
    have hc : 0 < c := by omega
    obtain ⟨rn, rfl⟩ := Int.eq_ofNat_of_zero_le (Int.le_of_lt hr)
    obtain ⟨cn, rfl⟩ := Int.eq_ofNat_of_zero_le (Int.le_of_lt hc)
    have hrn : 0 < rn := by omega
    have hcn : 0 < cn := by omega
    refine ⟨_, _, newMatrix_eq rn cn hrn hcn, ⟨fun hx => absurd rfl hx, fun hx => absurd hx h⟩,
      ?_⟩
    intro _ _
    refine ⟨by simp, ?_, getShape_of_shape _ rn cn (replicate_shape rn cn 0) hrn hcn⟩
    intro row hrow
    rw [List.eq_of_mem_replicate hrow]
    refine ⟨by simp, ?_⟩
    intro x hx
    exact List.eq_of_mem_replicate hx

/-- C14, at `r = 2`, `c = 3` over the integers. -/
theorem C14_newMatrix_witness :
    ∃ m e, (NewMatrix 2 3 : Option (Matrix Int × Option String)) = some (m, e) ∧
      (e ≠ none ↔ ((2 : Int) ≤ 0 ∨ (3 : Int) ≤ 0)) ∧
      ((0 : Int) < 2 → (0 : Int) < 3 →
        ((m.length : Int) = 2) ∧
        (∀ row ∈ m, ((row.length : Int) = 3) ∧ ∀ x ∈ row, x = 0) ∧
        Matrix.GetShape m = some (2, 3)) :=
  C14_newMatrix Int 2 3

/-- C15: for well-formed matrices `A` and `B`, matrix `Add` and `Minus` never
panic and return a non-nil error exactly when `GetShape A ≠ GetShape B`; when
the shapes are equal the result has that same `GetShape` and its cell
`(i, j)` is `A[i][j] + B[i][j]`, respectively `A[i][j] - B[i][j]`. -/
theorem C15_mat_add_minus (α : Type) [Zero α] [Add α] [Sub α] (A B : Matrix α)
    (hA : WellFormed A) (hB : WellFormed B) :
    ∃ sA sB, Matrix.GetShape A = some sA ∧ Matrix.GetShape B = some sB ∧
      (∃ m3 e, Matrix.Add A B = some (m3, e) ∧ (e ≠ none ↔ sA ≠ sB) ∧
        (sA = sB → Matrix.GetShape m3 = some sA ∧
          ∀ i j, i < Matrix.rows A → j < Matrix.cols A →
            ∃ x y, getCell A i j = some x ∧ getCell B i j = some y ∧
              getCell m3 i j = some (x + y))) ∧
      (∃ m3 e, Matrix.Minus A B = some (m3, e) ∧ (e ≠ none ↔ sA ≠ sB) ∧
        (sA = sB → Matrix.GetShape m3 = some sA ∧
          ∀ i j, i < Matrix.rows A → j < Matrix.cols A →
            ∃ x y, getCell A i j = some x ∧ getCell B i j = some y ∧
              getCell m3 i j = some (x - y))) := by
  obtain ⟨_, hrA, hcA⟩ := wellFormed_shape A hA
  refine ⟨_, _, getShape_wellFormed A hA, getShape_wellFormed B hB, ?_⟩
  by_cases h : Matrix.rows A = Matrix.rows B ∧ Matrix.cols A = Matrix.cols B
  · obtain ⟨m3, hm3, hsh, hcells⟩ := matAdd_spec A B hA hB h.1 h.2
    obtain ⟨n3, hn3, hsh2, hcells2⟩ := matMinus_spec A B hA hB h.1 h.2
    have he : ((Matrix.rows A : Int), (Matrix.cols A : Int))
        = ((Matrix.rows B : Int), (Matrix.cols B : Int)) := by
      rw [h.1, h.2]
    exact ⟨⟨m3, none, hm3, ⟨fun hx => absurd rfl hx, fun hx => absurd he hx⟩,
        fun _ => ⟨getShape_of_shape m3 _ _ hsh hrA hcA, hcells⟩⟩,
      ⟨n3, none, hn3, ⟨fun hx => absurd rfl hx, fun hx => absurd he hx⟩,
        fun _ => ⟨getShape_of_shape n3 _ _ hsh2 hrA hcA, hcells2⟩⟩⟩
  · have hne := shape_pair_ne A B h
    exact ⟨⟨[], _, matAdd_mismatch A B hA hB h, ⟨fun _ => hne, fun _ => by simp⟩,
        fun hx => absurd hx hne⟩,
      ⟨[], _, matMinus_mismatch A B hA hB h, ⟨fun _ => hne, fun _ => by simp⟩,
        fun hx => absurd hx hne⟩⟩

/-- C15, at two 2 x 2 matrices of integers. -/
theorem C15_mat_add_minus_witness :
    WellFormed ([[1, 2], [3, 4]] : Matrix Int) ∧ WellFormed ([[5, 6], [7, 8]] : Matrix Int) ∧
    ∃ sA sB, Matrix.GetShape ([[1, 2], [3, 4]] : Matrix Int) = some sA ∧
      Matrix.GetShape ([[5, 6], [7, 8]] : Matrix Int) = some sB ∧
      (∃ m3 e, Matrix.Add ([[1, 2], [3, 4]] : Matrix Int) [[5, 6], [7, 8]] = some (m3, e) ∧
        (e ≠ none ↔ sA ≠ sB) ∧
        (sA = sB → Matrix.GetShape m3 = some sA ∧
          ∀ i j, i < Matrix.rows ([[1, 2], [3, 4]] : Matrix Int) →
            j < Matrix.cols ([[1, 2], [3, 4]] : Matrix Int) →
            ∃ x y, getCell ([[1, 2], [3, 4]] : Matrix Int) i j = some x ∧
              getCell ([[5, 6], [7, 8]] : Matrix Int) i j = some y ∧
              getCell m3 i j = some (x + y))) ∧
      (∃ m3 e, Matrix.Minus ([[1, 2], [3, 4]] : Matrix Int) [[5, 6], [7, 8]] = some (m3, e) ∧
        (e ≠ none ↔ sA ≠ sB) ∧
        (sA = sB → Matrix.GetShape m3 = some sA ∧
          ∀ i j, i < Matrix.rows ([[1, 2], [3, 4]] : Matrix Int) →
            j < Matrix.cols ([[1, 2], [3, 4]] : Matrix Int) →
            ∃ x y, getCell ([[1, 2], [3, 4]] : Matrix Int) i j = some x ∧
              getCell ([[5, 6], [7, 8]] : Matrix Int) i j = some y ∧
              getCell m3 i j = some (x - y))) :=
  ⟨by decide, by decide,
    C15_mat_add_minus Int [[1, 2], [3, 4]] [[5, 6], [7, 8]] (by decide) (by decide)⟩

/-- C16 as stated fails: the receiver `Matrix{row, row}` with `row = [1, 2]`
is well-formed, its two row headers name the same two memory cells, and
`Mul 2` leaves it as `[[4,8],[4,8]]`, not as `[[2,4],[2,4]]`. -/
theorem C16_scalar_mul_counterexample :
    InBounds ([1, 2] : List Int) [⟨0, 2⟩, ⟨0, 2⟩] ∧
    deref ([1, 2] : List Int) [⟨0, 2⟩, ⟨0, 2⟩] = [[1, 2], [1, 2]] ∧
    WellFormed (deref ([1, 2] : List Int) [⟨0, 2⟩, ⟨0, 2⟩]) ∧
    Matrix.Mul ([1, 2] : List Int) [⟨0, 2⟩, ⟨0, 2⟩] 2 = some ([4, 8], [⟨0, 2⟩, ⟨0, 2⟩]) ∧
    deref ([4, 8] : List Int) [⟨0, 2⟩, ⟨0, 2⟩] = [[4, 8], [4, 8]] ∧
    deref ([4, 8] : List Int) [⟨0, 2⟩, ⟨0, 2⟩]
      ≠ (deref ([1, 2] : List Int) [⟨0, 2⟩, ⟨0, 2⟩]).map (fun row => row.map (fun x => x * 2)) := by
  decide

/-- C16 (amended): scalar `Mul c` on a row vector, and on a well-formed
matrix no two rows of which share a memory cell, never panics and leaves the
receiver with every element `x` replaced by `x * c` and with the same
`GetShape`; `Mul 2` turns `[1,2,3]` into `[2,4,6]` and a following `Mul 0`
turns that into `[0,0,0]`. -/
theorem C16_scalar_mul (α : Type) [Zero α] [Mul α] :
    (∀ (v : RowVector α) (c : α),
      RowVector.Mul v c = some (v.map (fun x => x * c)) ∧
      RowVector.GetShape (v.map (fun x => x * c)) = RowVector.GetShape v) ∧
    (∀ (mem : List α) (m : List RowRef) (c : α), InBounds mem m →
      WellFormed (deref mem m) → RowsDisjoint m →
      ∃ mem2, Matrix.Mul mem m c = some (mem2, m) ∧
        deref mem2 m = (deref mem m).map (fun row => row.map (fun x => x * c)) ∧
        Matrix.GetShape (deref mem2 m) = Matrix.GetShape (deref mem m)) ∧
    RowVector.Mul ([1, 2, 3] : RowVector Int) 2 = some [2, 4, 6] ∧
    RowVector.Mul ([2, 4, 6] : RowVector Int) 0 = some [0, 0, 0] := by
  refine ⟨?_, ?_, by decide, by decide⟩
  · intro v c
    exact ⟨rowMul_eq v c, by simp [RowVector.GetShape]⟩
  · intro mem m c hb hw hd
    obtain ⟨mem2, hrun, hlen, hval⟩ := memScale_spec mem m c hb hw
    exact ⟨mem2, hrun, hval hd, (wf_of_length mem mem2 m hb hw hlen).2⟩

/-- C16 (amended), at a 2 x 2 matrix of integers, its rows in separate memory
cells, scaled by 3. -/
theorem C16_scalar_mul_witness :
    InBounds ([1, 2, 3, 4] : List Int) [⟨0, 2⟩, ⟨2, 2⟩] ∧
    WellFormed (deref ([1, 2, 3, 4] : List Int) [⟨0, 2⟩, ⟨2, 2⟩]) ∧
    RowsDisjoint [⟨0, 2⟩, ⟨2, 2⟩] ∧
    deref ([1, 2, 3, 4] : List Int) [⟨0, 2⟩, ⟨2, 2⟩] = [[1, 2], [3, 4]] ∧
    ∃ mem2, Matrix.Mul ([1, 2, 3, 4] : List Int) [⟨0, 2⟩, ⟨2, 2⟩] 3
        = some (mem2, [⟨0, 2⟩, ⟨2, 2⟩]) ∧
      deref mem2 [⟨0, 2⟩, ⟨2, 2⟩]
        = (deref ([1, 2, 3, 4] : List Int) [⟨0, 2⟩, ⟨2, 2⟩]).map
            (fun row => row.map (fun x => x * 3)) ∧
      Matrix.GetShape (deref mem2 [⟨0, 2⟩, ⟨2, 2⟩])
        = Matrix.GetShape (deref ([1, 2, 3, 4] : List Int) [⟨0, 2⟩, ⟨2, 2⟩]) :=
  ⟨by decide, by decide, by decide, by decide,
    (C16_scalar_mul Int).2.1 [1, 2, 3, 4] [⟨0, 2⟩, ⟨2, 2⟩] 3 (by decide) (by decide)
      (by decide)⟩

/-- C17 as stated fails: on `A = [[1,2],[3]]` and `B = [[5,6],[7,8]]`
`MatMul` returns a nil error although the `Dot` call for row 1 of `A`, `[3]`,
and column 0 of `B`, `[5,7]`, returns an error; the `0` that `Dot` returns
with its error is what cell `(1, 0)` holds. -/
theorem C17_matMul_no_swallow_counterexample :
    Matrix.MatMul ([[1, 2], [3]] : Matrix Int) [[5, 6], [7, 8]]
      = some ([[19, 22], [0, 0]], none) ∧
    ([[1, 2], [3]] : Matrix Int)[1]? = some [3] ∧
    getCell ([[5, 6], [7, 8]] : Matrix Int) 0 0 = some 5 ∧
    getCell ([[5, 6], [7, 8]] : Matrix Int) 1 0 = some 7 ∧
    RowVector.Dot ([3] : RowVector Int) [5, 7]
      = some (0, some "the dimensions of the two vectors are not equal") := by
  decide

/-- C17 (amended): for all matrices `A` and `B` such that every row of `A`
has as many entries as `B` has rows (the rows of `B` of any lengths),
whenever `MatMul A B` returns a nil error, every `Dot` call it made returned
a nil error, and each result cell `(i, j)` is the value of `Dot` on row `i`
of `A` and the gathered column `j` of `B`. -/
theorem C17_matMul_no_swallow (α : Type) [Zero α] [Add α] [Mul α] (A B : Matrix α)
    (hrows : ∀ row ∈ A, row.length = B.length) (m3 : Matrix α)
    (hM : Matrix.MatMul A B = some (m3, none)) :
    ∀ i j, i < Matrix.rows A → j < Matrix.cols B →
      ∃ row col d, A[i]? = some row ∧ col.length = Matrix.rows B ∧
        (∀ k, k < Matrix.rows B → ∃ x, getCell B k j = some x ∧ col[k]? = some x) ∧
        RowVector.Dot row col = some (d, none) ∧ getCell m3 i j = some d := by
  intro i j hi hj
  unfold Matrix.MatMul at hM
  simp only [Option.bind_eq_bind] at hM
  obtain ⟨s1, hs1, hM⟩ := Option.bind_eq_some.mp hM
  obtain ⟨s2, hs2, hM⟩ := Option.bind_eq_some.mp hM
  obtain ⟨row0, hrow0, rfl, hlenA, hcolsA⟩ := getShape_some A s1 hs1
  obtain ⟨brow0, hbrow0, rfl, hlenB, hcolsB⟩ := getShape_some B s2 hs2
  have hc1 : row0.length = B.length := hrows row0 (List.getElem?_mem hrow0)
  have hne : ¬ ((row0.length : Int) ≠ (B.length : Int)) := by simp [hc1]
  have hc2 : 0 < brow0.length := by
    rw [hcolsB] at hj
    omega
  simp only [hne, if_false, newMatrix_eq A.length brow0.length hlenA hc2,
    Option.some_bind] at hM
  obtain ⟨m4, hloop, hM⟩ := Option.bind_eq_some.mp hM
  simp only [Option.pure_def, Option.some.injEq, Prod.mk.injEq, and_true] at hM
  subst hM
  obtain ⟨_, hcells⟩ := fill_loops_returned A.length brow0.length
    (fun i j => (A[i]?).bind fun v1 =>
      (forLoop (B.length : Int) (fun k v2 => (getCell B k j).bind fun x => setIdx v2 k x)
        (makeSlice 0 (B.length : Int))).bind fun v2 =>
      (RowVector.Dot v1 v2).bind fun d => some d.1)
    (fun i j m3 => (A[i]?).bind fun v1 =>
      (forLoop (B.length : Int) (fun k v2 => (getCell B k j).bind fun x => setIdx v2 k x)
        (makeSlice 0 (B.length : Int))).bind fun v2 =>
      (RowVector.Dot v1 v2).bind fun d => setCell m3 i j d.1)
    (by
      intro i j m _ _
      simp only [Option.bind_assoc, Option.some_bind])
    (List.replicate A.length (List.replicate brow0.length 0)) m4 (replicate_shape _ _ 0) hloop
  obtain ⟨x, hx, hget⟩ := hcells i j hi (by rw [hcolsB] at hj; exact hj)
  obtain ⟨row, hrow, hx⟩ := Option.bind_eq_some.mp hx
  obtain ⟨col, hcol, hx⟩ := Option.bind_eq_some.mp hx
  obtain ⟨d, hd, hx⟩ := Option.bind_eq_some.mp hx
  obtain ⟨hcl, hck⟩ := gather_returned B.length (fun k => getCell B k j) _ col
    (makeSlice_length 0 B.length) hcol
  have hrl : row.length = col.length := by
    rw [hrows row (List.getElem?_mem hrow), hcl]
  rw [dot_eq row col hrl] at hd
  cases hd
  simp only [Option.some.injEq] at hx
  subst hx
  exact ⟨row, col, dotFold row col, hrow, hcl, hck, dot_eq row col hrl, hget⟩

/-- C17 (amended), at a 2 x 2 matrix and a second operand whose last row is
longer than its first. -/
theorem C17_matMul_no_swallow_witness :
    (∀ row ∈ ([[1, 2], [3, 4]] : Matrix Int),
      row.length = ([[5, 6], [7, 8, 9]] : Matrix Int).length) ∧
    Matrix.MatMul ([[1, 2], [3, 4]] : Matrix Int) [[5, 6], [7, 8, 9]]
      = some ([[19, 22], [43, 50]], none) ∧
    ∀ i j, i < Matrix.rows ([[1, 2], [3, 4]] : Matrix Int) →
      j < Matrix.cols ([[5, 6], [7, 8, 9]] : Matrix Int) →
      ∃ row col d, ([[1, 2], [3, 4]] : Matrix Int)[i]? = some row ∧
        col.length = Matrix.rows ([[5, 6], [7, 8, 9]] : Matrix Int) ∧
        (∀ k, k < Matrix.rows ([[5, 6], [7, 8, 9]] : Matrix Int) →
          ∃ x, getCell ([[5, 6], [7, 8, 9]] : Matrix Int) k j = some x ∧ col[k]? = some x) ∧
        RowVector.Dot row col = some (d, none) ∧
        getCell ([[19, 22], [43, 50]] : Matrix Int) i j = some d :=
  ⟨by decide, by decide,
    C17_matMul_no_swallow Int [[1, 2], [3, 4]] [[5, 6], [7, 8, 9]] (by decide)
      [[19, 22], [43, 50]] (by decide)⟩

/-- C18: well-formedness is kept by the matrix operations: a matrix that
`NewMatrix` returns with a nil error is well-formed; on well-formed operands
every matrix that `Add`, `Minus` or `MatMul` returns with a nil error is
well-formed; `Transpose` of a well-formed matrix returns a well-formed
matrix; `Mul` leaves a well-formed receiver well-formed, whether or not its
rows share memory cells; and on a well-formed matrix `GetShape` returns (its
index `0` is in range). -/
theorem C18_wellFormed_invariant (α : Type) [Zero α] [Add α] [Sub α] [Mul α] :
    (∀ (r c : Int) (m : Matrix α), NewMatrix r c = some (m, none) → WellFormed m) ∧
    (∀ A B : Matrix α, WellFormed A → WellFormed B →
      (∀ m, Matrix.Add A B = some (m, none) → WellFormed m) ∧
      (∀ m, Matrix.Minus A B = some (m, none) → WellFormed m) ∧
      (∀ m, Matrix.MatMul A B = some (m, none) → WellFormed m)) ∧
    (∀ A : Matrix α, WellFormed A → ∃ T, Matrix.Transpose A = some T ∧ WellFormed T) ∧
    (∀ (mem : List α) (m : List RowRef) (c : α), InBounds mem m → WellFormed (deref mem m) →
      ∃ mem2, Matrix.Mul mem m c = some (mem2, m) ∧ InBounds mem2 m ∧
        WellFormed (deref mem2 m)) ∧
    (∀ A : Matrix α, WellFormed A → ∃ s, Matrix.GetShape A = some s) := by
  refine ⟨?_, ?_, ?_, ?_, ?_⟩
  · intro r c m hm
    by_cases h : r ≤ 0 ∨ c ≤ 0
    · unfold NewMatrix at hm
      rw [if_pos h] at hm
      simp at hm
    · have hr : 0 < r := by omega
      have hc : 0 < c := by omega
      obtain ⟨rn, rfl⟩ := Int.eq_ofNat_of_zero_le (Int.le_of_lt hr)
      obtain ⟨cn, rfl⟩ := Int.eq_ofNat_of_zero_le (Int.le_of_lt hc)
      rw [newMatrix_eq rn cn (by omega) (by omega)] at hm
      simp only [Option.some.injEq, Prod.mk.injEq, and_true] at hm
      subst hm
      exact (shape_wellFormed _ rn cn (replicate_shape rn cn 0) (by omega) (by omega)).1
  · intro A B hA hB
    obtain ⟨_, hrA, hcA⟩ := wellFormed_shape A hA
    obtain ⟨_, _, hcB⟩ := wellFormed_shape B hB
    refine ⟨?_, ?_, ?_⟩
    · intro m hm
      by_cases h : Matrix.rows A = Matrix.rows B ∧ Matrix.cols A = Matrix.cols B
      · obtain ⟨m3, hm3, hsh, _⟩ := matAdd_spec A B hA hB h.1 h.2
        rw [hm3] at hm
        simp only [Option.some.injEq, Prod.mk.injEq, and_true] at hm
        subst hm
        exact (shape_wellFormed _ _ _ hsh hrA hcA).1
      · rw [matAdd_mismatch A B hA hB h] at hm
        simp at hm
    · intro m hm
      by_cases h : Matrix.rows A = Matrix.rows B ∧ Matrix.cols A = Matrix.cols B
      · obtain ⟨m3, hm3, hsh, _⟩ := matMinus_spec A B hA hB h.1 h.2
        rw [hm3] at hm
        simp only [Option.some.injEq, Prod.mk.injEq, and_true] at hm
        subst hm
        exact (shape_wellFormed _ _ _ hsh hrA hcA).1
      · rw [matMinus_mismatch A B hA hB h] at hm
        simp at hm
    · intro m hm
      by_cases h : Matrix.cols A = Matrix.rows B
      · obtain ⟨m3, hm3, hsh, _⟩ := matMul_spec A B hA hB h
        rw [hm3] at hm
        simp only [Option.some.injEq, Prod.mk.injEq, and_true] at hm
        subst hm
        exact (shape_wellFormed _ _ _ hsh hrA hcB).1
      · rw [matMul_mismatch A B hA hB h] at hm
        simp at hm
  · intro A hA
    obtain ⟨_, hrA, hcA⟩ := wellFormed_shape A hA
    obtain ⟨T, hT, hsh, _⟩ := transpose_spec A hA
    exact ⟨T, hT, (shape_wellFormed _ _ _ hsh hcA hrA).1⟩
  · intro mem m c hb hw
    obtain ⟨mem2, hrun, hlen, _⟩ := memScale_spec mem m c hb hw
    exact ⟨mem2, hrun, inBounds_of_length mem mem2 m hb hlen,
      (wf_of_length mem mem2 m hb hw hlen).1⟩
  · intro A hA
    exact ⟨_, getShape_wellFormed A hA⟩

/-- C18, at two 2 x 2 matrices of integers: their product is well-formed. -/
theorem C18_wellFormed_invariant_witness :
    WellFormed ([[1, 2], [3, 4]] : Matrix Int) ∧ WellFormed ([[5, 6], [7, 8]] : Matrix Int) ∧
    Matrix.MatMul ([[1, 2], [3, 4]] : Matrix Int) [[5, 6], [7, 8]]
      = some ([[19, 22], [43, 50]], none) ∧
    WellFormed ([[19, 22], [43, 50]] : Matrix Int) :=
  ⟨by decide, by decide, by decide,
    ((C18_wellFormed_invariant Int).2.1 [[1, 2], [3, 4]] [[5, 6], [7, 8]]
      (by decide) (by decide)).2.2 [[19, 22], [43, 50]] (by decide)⟩

/-- C19: when multiplication of scalars is commutative, for well-formed `A`
(`r x n`) and `B` (`n x c`) the product `MatMul (Transpose B) (Transpose A)`
returns with a nil error and is the very matrix `Transpose (MatMul A B)`. -/
theorem C19_transpose_matMul (α : Type) [Zero α] [Add α] [CommMagma α] (A B : Matrix α)
    (hA : WellFormed A) (hB : WellFormed B) (hcr : Matrix.cols A = Matrix.rows B) :
    ∃ At Bt P Pt, Matrix.Transpose A = some At ∧ Matrix.Transpose B = some Bt ∧
      Matrix.MatMul A B = some (P, none) ∧ Matrix.Transpose P = some Pt ∧
      Matrix.MatMul Bt At = some (Pt, none) := by
  obtain ⟨hsA, hrA, hcA⟩ := wellFormed_shape A hA
  obtain ⟨hsB, hrB, hcB⟩ := wellFormed_shape B hB
  obtain ⟨At, hAt, hshAt, hcAt⟩ := transpose_spec A hA
  obtain ⟨Bt, hBt, hshBt, hcBt⟩ := transpose_spec B hB
  obtain ⟨hwAt, erAt, ecAt⟩ := shape_wellFormed At _ _ hshAt hcA hrA
  obtain ⟨hwBt, erBt, ecBt⟩ := shape_wellFormed Bt _ _ hshBt hcB hrB
  obtain ⟨P, hP, hshP, hcP⟩ := matMul_spec A B hA hB hcr
  obtain ⟨hwP, erP, ecP⟩ := shape_wellFormed P _ _ hshP hrA hcB
  obtain ⟨Pt, hPt, hshPt, hcPt⟩ := transpose_spec P hwP
  obtain ⟨Q, hQ, hshQ, hcQ⟩ := matMul_spec Bt At hwBt hwAt (by rw [ecBt, erAt, hcr])
  refine ⟨At, Bt, P, Pt, hAt, hBt, hP, hPt, ?_⟩
  rw [hQ]
  congr 2
  rw [erBt, ecAt] at hshQ
  rw [erP, ecP] at hshPt
  apply shape_ext Q Pt _ _ hshQ hshPt
  intro j i hj hi
  obtain ⟨row, col, hrow, hrl, hcl, hck, hget⟩ := hcQ j i (by omega) (by omega)
  obtain ⟨rowA, colB, hrowA, hrlA, hclB, hckB, hgetP⟩ := hcP i j hi hj
  have e1 : row = colB := by
    apply list_ext_lt row colB (Matrix.rows B) (by omega) hclB
    intro k hk
    rw [hckB k hk, ← hcBt j k hj hk, getCell_eq Bt j k row hrow]
  have e2 : col = rowA := by
    apply list_ext_lt col rowA (Matrix.cols A) (by omega) hrlA
    intro k hk
    rw [hck k (by omega), hcAt k i hk hi, getCell_eq A i k rowA hrowA]
  rw [hget, hcPt j i (by omega) (by omega), hgetP, e1, e2]
  congr 1
  exact foldl_zip_swap (fun x y : α => mul_comm x y) colB rowA 0

/-- C19, at a 2 x 3 and a 3 x 2 matrix of integers. -/
theorem C19_transpose_matMul_witness :
    WellFormed ([[1, 2, 3], [4, 5, 6]] : Matrix Int) ∧
    WellFormed ([[1, 0], [0, 1], [2, 2]] : Matrix Int) ∧
    Matrix.cols ([[1, 2, 3], [4, 5, 6]] : Matrix Int)
      = Matrix.rows ([[1, 0], [0, 1], [2, 2]] : Matrix Int) ∧
    ∃ At Bt P Pt, Matrix.Transpose ([[1, 2, 3], [4, 5, 6]] : Matrix Int) = some At ∧
      Matrix.Transpose ([[1, 0], [0, 1], [2, 2]] : Matrix Int) = some Bt ∧
      Matrix.MatMul ([[1, 2, 3], [4, 5, 6]] : Matrix Int) [[1, 0], [0, 1], [2, 2]]
        = some (P, none) ∧
      Matrix.Transpose P = some Pt ∧ Matrix.MatMul Bt At = some (Pt, none) :=
  ⟨by decide, by decide, by decide,
    C19_transpose_matMul Int [[1, 2, 3], [4, 5, 6]] [[1, 0], [0, 1], [2, 2]]
      (by decide) (by decide) (by decide)⟩

/-- C20: over exact (commutative-ring) arithmetic, for vectors `a`, `b` of
length 3, `Cross a b` returns a vector `u` with a nil error, and `Dot u a`
and `Dot u b` both return `0` with a nil error. -/
theorem C20_cross_orthogonal (α : Type) [CommRing α] (a b : RowVector α)
    (ha : a.length = 3) (hb : b.length = 3) :
    ∃ u, RowVector.Cross a b = some (u, none) ∧ RowVector.Dot u a = some (0, none) ∧
      RowVector.Dot u b = some (0, none) := by
  obtain ⟨a0, a1, a2, rfl⟩ := List.length_eq_three.mp ha
  obtain ⟨b0, b1, b2, rfl⟩ := List.length_eq_three.mp hb
  refine ⟨_, cross_three a0 a1 a2 b0 b1 b2, ?_, ?_⟩
  · rw [dot_eq [a1 * b2 - a2 * b1, a2 * b0 - a0 * b2, a0 * b1 - a1 * b0] [a0, a1, a2] rfl]
    congr 2
    simp only [dotFold, List.zip_cons_cons, List.zip_nil_left, List.foldl_cons, List.foldl_nil]
    ring
  · rw [dot_eq [a1 * b2 - a2 * b1, a2 * b0 - a0 * b2, a0 * b1 - a1 * b0] [b0, b1, b2] rfl]
    congr 2
    simp only [dotFold, List.zip_cons_cons, List.zip_nil_left, List.foldl_cons, List.foldl_nil]
    ring

/-- C20, at two integer vectors of length 3. -/
theorem C20_cross_orthogonal_witness :
    ([1, 2, 3] : RowVector Int).length = 3 ∧ ([4, 5, 6] : RowVector Int).length = 3 ∧
    ∃ u, RowVector.Cross ([1, 2, 3] : RowVector Int) [4, 5, 6] = some (u, none) ∧
      RowVector.Dot u [1, 2, 3] = some (0, none) ∧ RowVector.Dot u [4, 5, 6] = some (0, none) :=
  ⟨by decide, by decide, C20_cross_orthogonal Int [1, 2, 3] [4, 5, 6] (by decide) (by decide)⟩

end Claims

end GoHub
